import Mathlib

/-!
Verification of the cover-network storage engine of mockturtle
(`include/mockturtle/networks/cover.hpp`).

The development below is a shallow embedding of the C++ source: vectors
become lists, node/signal indices (`uint64_t`) become `Nat`, the packed
32-bit scratch fields of `mixed_fanin_node<2>` become separate `Nat`
fields, and the `unordered_map` used for structural hashing becomes an
association list keyed by the fields compared by
`cover_storage_node::operator==` (the children list and the cover
reference).  Event listeners (`events.hpp`) are modelled by recording the
trace of fired events: each "node added" and "node modified" notification
is appended to a trace list in the state.
-/

/-- A kitty cube (`kitty::cube`): a bit pattern `bits` (the C++ `_bits`
field) together with a care mask `mask` (the C++ `_mask` field). -/
structure cube where
  bits : Nat
  mask : Nat
deriving DecidableEq, Repr

/-- `cover_type = std::pair<std::vector<kitty::cube>, bool>`: the cube list
together with the polarity flag (`true` = the list is the ON-set). -/
abbrev cover_type := List cube × Bool

/-- `cover_storage_node`: children plus the four packed data fields
(`data[0].h1` fanout, `data[0].h2` value, `data[1].h1` cover reference,
`data[1].h2` visited).  A default-constructed node has empty children and
all-zero data. -/
structure cover_storage_node where
  children : List Nat := []
  fanout : Nat := 0
  value : Nat := 0
  coverRef : Nat := 0
  visited : Nat := 0
deriving DecidableEq, Repr

/-- A default-constructed `cover_storage_node` (what `emplace_back()` with
no arguments produces: empty children, all data fields zero). -/
def newNode : cover_storage_node := {}

instance : Inhabited cover_storage_node := ⟨newNode⟩

/-- The structural-hash key of a node: exactly the fields compared by
`cover_storage_node::operator==`, i.e. `data[1].h1` (the cover reference)
and the children list. -/
abbrev nodeKey := List Nat × Nat

/-- The full network storage (`storage<cover_storage_node,
cover_storage_data>`): node arena, input/output lists, hash-consing table,
cover table, counters, latch resets and traversal id, plus the traces of
fired "node added" and "node modified" events. -/
structure cover_storage where
  nodes : List cover_storage_node
  inputs : List Nat
  outputs : List Nat
  hash : List (nodeKey × Nat)
  covers : List cover_type
  num_pis : Nat
  num_pos : Nat
  latches : List Int
  trav_id : Nat
  eventsAdd : List Nat
  eventsModified : List (Nat × List Nat)
deriving DecidableEq, Repr

/-- Read node `i` of the arena (out-of-range reads, undefined behaviour in
C++, give the default node). -/
def nodeAt (st : cover_storage) (i : Nat) : cover_storage_node :=
  st.nodes.getD i default

/-- Update node `i` in place (no-op when out of range, mirroring that the
C++ code never indexes out of range on the paths we model). -/
def updNode (ns : List cover_storage_node) (i : Nat)
    (f : cover_storage_node → cover_storage_node) : List cover_storage_node :=
  ns.set i (f (ns.getD i default))

/-- `_storage->nodes[i].data[0].h1++`. -/
def incrFanout (st : cover_storage) (i : Nat) : cover_storage :=
  { st with nodes := updNode st.nodes i (fun nd => { nd with fanout := nd.fanout + 1 }) }

/-- Lookup in the hash-consing table (`_storage->hash.find( node )`). -/
def hashFind (h : List (nodeKey × Nat)) (k : nodeKey) : Option Nat :=
  (h.find? (fun p => p.1 == k)).map (·.2)

/-- `cover_storage_data::insert`: appends the cover unconditionally and
returns the index it occupies (`covers.size()` before the append). -/
def coverInsert (st : cover_storage) (c : cover_type) : cover_storage × Nat :=
  ({ st with covers := st.covers ++ [c] }, st.covers.length)

/-- `kitty::cube`'s string constructor, modelled from the kitty library
dependency: the i-th character of the string corresponds to literal
position i; a '1' sets bit i of both `_bits` and `_mask` (positive
literal), a '0' sets bit i of `_mask` only (negative literal), and any
other character (customarily '-') leaves position i as don't-care. -/
def cube_from (i : Nat) : List Char → cube
  | [] => ⟨0, 0⟩
  | c :: cs =>
    let r := cube_from (i + 1) cs
    if c = '1' then ⟨r.bits ||| (1 <<< i), r.mask ||| (1 <<< i)⟩
    else if c = '0' then ⟨r.bits, r.mask ||| (1 <<< i)⟩
    else r

/-- `kitty::cube( str )`, reading characters from literal position 0. -/
def kitty_cube (cs : List Char) : cube := cube_from 0 cs

/-- Modelled from the spec: the underlying `storage` constructor
(`storage.hpp`, which is not part of `src/`) creates the arena with the
single node 0 already present (the spec reserves indices 0 and 1 for the
constants, and `_init` accesses `nodes[0]` without appending it first)
and every other container empty. -/
def emptyStorage : cover_storage :=
  { nodes := [newNode], inputs := [], outputs := [], hash := [], covers := [],
    num_pis := 0, num_pos := 0, latches := [], trav_id := 0,
    eventsAdd := [], eventsModified := [] }

/-- `cover_network::_init()`: registers the always-matching wildcard cube
(`kitty::cube()`, all-zero bits and mask) with polarity false as the cover
of the reserved constant-0 node, appends the reserved constant-1 node with
the wildcard cube and polarity true, and enters both nodes into the
hash-consing table. -/
def cover_network_init (s : cover_storage) : cover_storage :=
  let p0 := coverInsert s ([⟨0, 0⟩], false)
  let s1 := { p0.1 with nodes := updNode p0.1.nodes 0 (fun nd => { nd with coverRef := p0.2 }) }
  let s2 := { s1 with hash := s1.hash ++ [((([] : List Nat), p0.2), 0)] }
  let s3 := { s2 with nodes := s2.nodes ++ [newNode] }
  let p1 := coverInsert s3 ([⟨0, 0⟩], true)
  let s4 := { p1.1 with nodes := updNode p1.1.nodes 1 (fun nd => { nd with coverRef := p1.2 }) }
  { s4 with hash := s4.hash ++ [((([] : List Nat), p1.2), 1)] }

/-- A freshly constructed `cover_network`. -/
def cover_network_new : cover_storage := cover_network_init emptyStorage

/-- `get_constant`: signal 0 is constant false, signal 1 constant true. -/
def get_constant (value : Bool) : Nat := if value then 1 else 0

/-- `create_pi`: inserts the cover `{ kitty::cube("1") }` with polarity
true, appends a fresh node, sets that node's cover reference to the NODE
index (`index_node`, not `index_covers` -- faithful to the source, which
computes `index_covers` and then does not use it), hashes it, appends it to
the input list and bumps `num_pis`. -/
def create_pi (st : cover_storage) : cover_storage × Nat :=
  let index_node := st.nodes.length
  let p := coverInsert st ([kitty_cube ['1']], true)
  let s1 := { p.1 with nodes := p.1.nodes ++ [newNode] }
  let s2 := { s1 with nodes := updNode s1.nodes index_node (fun nd => { nd with coverRef := index_node }) }
  let s3 := { s2 with hash := s2.hash ++ [((([] : List Nat), index_node), index_node)] }
  let s4 := { s3 with inputs := s3.inputs ++ [index_node] }
  ({ s4 with num_pis := s4.num_pis + 1 }, index_node)

/-- `create_po`: increments the fanout of `f`, appends `f` to the output
list, bumps `num_pos` and returns the output position. -/
def create_po (st : cover_storage) (f : Nat) : cover_storage × Nat :=
  let s1 := incrFanout st f
  let po_index := s1.outputs.length
  ({ s1 with outputs := s1.outputs ++ [f], num_pos := s1.num_pos + 1 }, po_index)

/-- `create_ro`: appends a fresh node, appends it to the input list and
sets its cover reference to its own node index.  No cover is inserted into
the cover table (faithful to the source). -/
def create_ro (st : cover_storage) : cover_storage × Nat :=
  let index := st.nodes.length
  let s1 := { st with nodes := st.nodes ++ [newNode] }
  let s2 := { s1 with inputs := s1.inputs ++ [index] }
  let s3 := { s2 with nodes := updNode s2.nodes index (fun nd => { nd with coverRef := index }) }
  (s3, index)

/-- `create_ri`: increments the fanout of `f`, appends `f` to the output
list and the reset value to the latch array, returns the output position. -/
def create_ri (st : cover_storage) (f : Nat) (reset : Int) : cover_storage × Nat :=
  let s1 := incrFanout st f
  let ri_index := s1.outputs.length
  ({ s1 with outputs := s1.outputs ++ [f], latches := s1.latches ++ [reset] }, ri_index)

/-- `set_value`. -/
def set_value (st : cover_storage) (n v : Nat) : cover_storage :=
  { st with nodes := updNode st.nodes n (fun nd => { nd with value := v }) }

/-- `clear_values`. -/
def clear_values (st : cover_storage) : cover_storage :=
  { st with nodes := st.nodes.map (fun nd => { nd with value := 0 }) }

/-- `value`. -/
def value (st : cover_storage) (n : Nat) : Nat := (nodeAt st n).value

/-- `incr_value` (post-increment: returns the old value). -/
def incr_value (st : cover_storage) (n : Nat) : cover_storage × Nat :=
  ({ st with nodes := updNode st.nodes n (fun nd => { nd with value := nd.value + 1 }) },
   (nodeAt st n).value)

/-- `decr_value` (pre-decrement: returns the new value). -/
def decr_value (st : cover_storage) (n : Nat) : cover_storage × Nat :=
  ({ st with nodes := updNode st.nodes n (fun nd => { nd with value := nd.value - 1 }) },
   (nodeAt st n).value - 1)

/-- `set_visited`. -/
def set_visited (st : cover_storage) (n v : Nat) : cover_storage :=
  { st with nodes := updNode st.nodes n (fun nd => { nd with visited := v }) }

/-- `clear_visited`. -/
def clear_visited (st : cover_storage) : cover_storage :=
  { st with nodes := st.nodes.map (fun nd => { nd with visited := 0 }) }

/-- `incr_trav_id`. -/
def incr_trav_id (st : cover_storage) : cover_storage :=
  { st with trav_id := st.trav_id + 1 }

/-- `fanout_size`. -/
def fanout_size (st : cover_storage) (n : Nat) : Nat := (nodeAt st n).fanout

/-- `fanin_size`. -/
def fanin_size (st : cover_storage) (n : Nat) : Nat := (nodeAt st n).children.length

/-- `node_cover`: the cover referenced by node `n` (an out-of-range
reference, undefined behaviour in C++, gives the default empty cover). -/
def node_cover (st : cover_storage) (n : Nat) : cover_type :=
  st.covers.getD (nodeAt st n).coverRef ([], false)

/-- `_create_cover_node`: FIRST inserts the cover into the cover table
unconditionally, then looks up the structural key (children plus the fresh
cover index) in the hash table; on a hit it returns the found index (with
the cover already inserted); on a miss it appends a node, hashes it,
increments the fanout of every child, zeroes the new node's value and
fires the "node added" event. -/
def _create_cover_node (st : cover_storage) (children : List Nat)
    (new_cover : cover_type) : cover_storage × Nat :=
  let p := coverInsert st new_cover
  let literal := p.2
  let s0 := p.1
  match hashFind s0.hash (children, literal) with
  | some idx => (s0, idx)
  | none =>
    let index := s0.nodes.length
    let s1 := { s0 with nodes := s0.nodes ++ [({ children := children, coverRef := literal } : cover_storage_node)] }
    let s2 := { s1 with hash := s1.hash ++ [((children, literal), index)] }
    let s3 := children.foldl (fun s c => incrFanout s c) s2
    let s4 := set_value s3 index 0
    let s5 := { s4 with eventsAdd := s4.eventsAdd ++ [index] }
    (s5, index)

/-- `create_cover_node` (cover overload): empty children short-circuit to
the constant of the cover's polarity. -/
def create_cover_node (st : cover_storage) (children : List Nat)
    (new_cover : cover_type) : cover_storage × Nat :=
  if children.length = 0 then (st, get_constant new_cover.2)
  else _create_cover_node st children new_cover

/-- The mask built by the truth-table overload of `create_cover_node`:
`mask = 1` followed by `children.size() - 1` iterations of
`mask |= mask << 1`. -/
def ttMask_go : Nat → Nat → Nat
  | 0, m => m
  | t + 1, m => ttMask_go t (m ||| (m <<< 1))

def ttMask (k : Nat) : Nat := ttMask_go (k - 1) 1

/-- `create_cover_node` (truth-table overload).  The truth table of a
`k`-fanin node is a list of `2^k` bits (`kitty::get_bit(function, i)` is
`function.getD i false`).  Polarity is ON iff the number of 1-outputs is at
most the number of 0-outputs; every input combination whose output matches
the polarity becomes a fully-specified cube `kitty::cube(i, mask)`.

The enumeration loop runs a `uint32_t` counter `i` against the
floating-point bound `pow(2, children.size())`, which represents `2^k`
exactly.  The loop exits only when the wrapped 32-bit value of `i` reaches
the bound, i.e. only when `2^k < 2^32`: for widths up to 31 the counter
reaches `2^k` and the loop visits exactly the combinations `0 .. 2^k - 1`,
but at width 32 (and beyond) every 32-bit value of `i` stays below the
bound, the counter wraps around forever and the call never returns.  The
model signals that divergence by returning `none`. -/
def create_cover_node_tt (st : cover_storage) (children : List Nat)
    (function : List Bool) : Option (cover_storage × Nat) :=
  if children.length = 0 then some (st, get_constant (function.any (fun b => b)))
  else if 2 ^ children.length < 2 ^ 32 then
    let is_sop := function.count true ≤ function.count false
    let mask := ttMask children.length
    let cubes := ((List.range (2 ^ children.length)).filter
        (fun i => function.getD i false == is_sop)).map (fun i => (⟨i, mask⟩ : cube))
    some (_create_cover_node st children (cubes, is_sop))
  else none

/-- `create_buf`: the identity, no node created. -/
def create_buf (st : cover_storage) (a : Nat) : cover_storage × Nat := (st, a)

/-- `create_not`: cover `{ "0" }`, polarity ON. -/
def create_not (st : cover_storage) (a : Nat) : cover_storage × Nat :=
  _create_cover_node st [a] ([kitty_cube ['0']], true)

/-- `create_and`: cover `{ "11" }`, polarity ON. -/
def create_and (st : cover_storage) (a b : Nat) : cover_storage × Nat :=
  _create_cover_node st [a, b] ([kitty_cube ['1', '1']], true)

/-- `create_nand`: cover `{ "11" }`, polarity OFF. -/
def create_nand (st : cover_storage) (a b : Nat) : cover_storage × Nat :=
  _create_cover_node st [a, b] ([kitty_cube ['1', '1']], false)

/-- `create_or`: cover `{ "00" }`, polarity OFF. -/
def create_or (st : cover_storage) (a b : Nat) : cover_storage × Nat :=
  _create_cover_node st [a, b] ([kitty_cube ['0', '0']], false)

/-- `create_nor`: cover `{ "00" }`, polarity ON. -/
def create_nor (st : cover_storage) (a b : Nat) : cover_storage × Nat :=
  _create_cover_node st [a, b] ([kitty_cube ['0', '0']], true)

/-- `create_lt`: cover `{ "01" }`, polarity ON. -/
def create_lt (st : cover_storage) (a b : Nat) : cover_storage × Nat :=
  _create_cover_node st [a, b] ([kitty_cube ['0', '1']], true)

/-- `create_le`: cover `{ "10" }`, polarity OFF. -/
def create_le (st : cover_storage) (a b : Nat) : cover_storage × Nat :=
  _create_cover_node st [a, b] ([kitty_cube ['1', '0']], false)

/-- `create_gt`: cover `{ "10" }`, polarity ON. -/
def create_gt (st : cover_storage) (a b : Nat) : cover_storage × Nat :=
  _create_cover_node st [a, b] ([kitty_cube ['1', '0']], true)

/-- `create_ge`: cover `{ "01" }`, polarity OFF. -/
def create_ge (st : cover_storage) (a b : Nat) : cover_storage × Nat :=
  _create_cover_node st [a, b] ([kitty_cube ['0', '1']], false)

/-- `create_xor`: cover `{ "01", "10" }`, polarity ON. -/
def create_xor (st : cover_storage) (a b : Nat) : cover_storage × Nat :=
  _create_cover_node st [a, b] ([kitty_cube ['0', '1'], kitty_cube ['1', '0']], true)

/-- `create_xnor`: cover `{ "00", "11" }`, polarity ON. -/
def create_xnor (st : cover_storage) (a b : Nat) : cover_storage × Nat :=
  _create_cover_node st [a, b] ([kitty_cube ['0', '0'], kitty_cube ['1', '1']], true)

/-- `create_maj`: cover `{ "011", "101", "110", "111" }`, polarity ON. -/
def create_maj (st : cover_storage) (a b c : Nat) : cover_storage × Nat :=
  _create_cover_node st [a, b, c]
    ([kitty_cube ['0', '1', '1'], kitty_cube ['1', '0', '1'],
      kitty_cube ['1', '1', '0'], kitty_cube ['1', '1', '1']], true)

/-- `create_ite`: cover `{ "11-", "0-1" }`, polarity ON. -/
def create_ite (st : cover_storage) (a b c : Nat) : cover_storage × Nat :=
  _create_cover_node st [a, b, c]
    ([kitty_cube ['1', '1', '-'], kitty_cube ['0', '-', '1']], true)

/-- `create_xor3`: cover `{ "001", "010", "100", "111" }`, polarity ON. -/
def create_xor3 (st : cover_storage) (a b c : Nat) : cover_storage × Nat :=
  _create_cover_node st [a, b, c]
    ([kitty_cube ['0', '0', '1'], kitty_cube ['0', '1', '0'],
      kitty_cube ['1', '0', '0'], kitty_cube ['1', '1', '1']], true)

/-- Modelled from the spec: `tree_reduce` (`utils/algorithm.hpp`) is not
part of `src/`.  Per the spec, the n-ary reductions fold the operand list
through the binary builder seeded with the operator's identity constant;
an empty operand list returns the seed unchanged, and a single-operand
list returns that operand verbatim (identity fold, no combine applied,
hence no node created).  Longer lists are combined left to right (the spec
allows any grouping, the three operators being associative and
commutative). -/
def tree_reduce_go (op : cover_storage → Nat → Nat → cover_storage × Nat) :
    cover_storage → Nat → List Nat → cover_storage × Nat
  | st, acc, [] => (st, acc)
  | st, acc, y :: rest =>
    let r := op st acc y
    tree_reduce_go op r.1 r.2 rest

def tree_reduce (st : cover_storage) (fs : List Nat) (init : Nat)
    (op : cover_storage → Nat → Nat → cover_storage × Nat) : cover_storage × Nat :=
  match fs with
  | [] => (st, init)
  | x :: rest => tree_reduce_go op st x rest

/-- `create_nary_and`: reduction seeded with `get_constant(true)`. -/
def create_nary_and (st : cover_storage) (fs : List Nat) : cover_storage × Nat :=
  tree_reduce st fs (get_constant true) (fun s a b => create_and s a b)

/-- `create_nary_or`: reduction seeded with `get_constant(false)`. -/
def create_nary_or (st : cover_storage) (fs : List Nat) : cover_storage × Nat :=
  tree_reduce st fs (get_constant false) (fun s a b => create_or s a b)

/-- `create_nary_xor`: reduction seeded with `get_constant(false)`. -/
def create_nary_xor (st : cover_storage) (fs : List Nat) : cover_storage × Nat :=
  tree_reduce st fs (get_constant false) (fun s a b => create_xor s a b)

/-- Substitution on one child reference: `old` becomes `new`. -/
def substFun (o ne c : Nat) : Nat := if c = o then ne else c

/-- The inner loop of `substitute_node` over one node's child vector.
`acc` is the already-processed prefix (with matches already rewritten),
`rest` the remaining suffix; on a match the full current child list
(`acc ++ rest`, exactly what the C++ snapshot `old_children` reads from
storage at that moment) is recorded with the "modified" event, the child
is rewritten and the fanout of the replacement is incremented. -/
def subst_children_go (o ne i : Nat) :
    List Nat → List Nat → cover_storage → List Nat × cover_storage
  | acc, [], s => (acc, s)
  | acc, c :: cs, s =>
    if c = o then
      let old_children := acc ++ c :: cs
      let s1 := incrFanout s ne
      let s2 := { s1 with eventsModified := s1.eventsModified ++ [(i, old_children)] }
      subst_children_go o ne i (acc ++ [ne]) cs s2
    else
      subst_children_go o ne i (acc ++ [c]) cs s

/-- The outer loop of `substitute_node` over all arena indices. -/
def subst_nodes_go (o ne : Nat) : List Nat → cover_storage → cover_storage
  | [], s => s
  | i :: is', s =>
    let r := subst_children_go o ne i [] (nodeAt s i).children s
    let s1 := { r.2 with nodes := r.2.nodes.set i { nodeAt r.2 i with children := r.1 } }
    subst_nodes_go o ne is' s1

/-- The output-rewrite loop of `substitute_node`: every output equal to
`old` is rewritten to `new`, incrementing `new`'s fanout per rewrite (no
modification event is fired here). -/
def subst_outputs_go (o ne : Nat) : List Nat → cover_storage → List Nat × cover_storage
  | [], s => ([], s)
  | x :: xs, s =>
    if x = o then
      let s1 := incrFanout s ne
      let r := subst_outputs_go o ne xs s1
      (ne :: r.1, r.2)
    else
      let r := subst_outputs_go o ne xs s
      (x :: r.1, r.2)

/-- `substitute_node(old_node, new_signal)`: rewrite every child reference
equal to `old_node` (firing one "modified" event per rewritten reference),
rewrite every matching output, and finally reset `old_node`'s fanout to
zero unconditionally. -/
def substitute_node (st : cover_storage) (old_node new_signal : Nat) : cover_storage :=
  let s1 := subst_nodes_go old_node new_signal (List.range st.nodes.length) st
  let r := subst_outputs_go old_node new_signal s1.outputs s1
  let s2 := { r.2 with outputs := r.1 }
  { s2 with nodes := updNode s2.nodes old_node (fun nd => { nd with fanout := 0 }) }

/-- The index/mask fold of the single-assignment `compute`: for each input
bit, `mask = (mask << 1) | 1` and `index = (index << 1) ^ (b ? 1 : 0)`, so
the FIRST input ends up in the most significant position. -/
def computeIndexMask : List Bool → Nat × Nat → Nat × Nat
  | [], im => im
  | b :: rest, im =>
    computeIndexMask rest ((im.1 <<< 1) ^^^ (if b then 1 else 0), (im.2 <<< 1) ||| 1)

/-- The cube scan shared by both `compute` overloads: a cube `cb` matches
the input pattern iff `(cb._bits & cb._mask) == (input & cb._mask)`; on the
first match the polarity is returned (`second == 1`), and if no cube
matches the complement of the polarity is returned (`second == 0`). -/
def cube_scan : List cube → Nat → Bool → Bool
  | [], _, pol => !pol
  | cb :: rest, input, pol =>
    if cb.bits &&& cb.mask == input &&& cb.mask then pol
    else cube_scan rest input pol

/-- The single-assignment `compute` (iterator-over-bool overload). -/
def compute_single (st : cover_storage) (n : Nat) (vals : List Bool) : Bool :=
  let im := computeIndexMask vals (0, 0)
  let cov := node_cover st n
  cube_scan cov.1 im.1 cov.2

/-- The per-bit-position pattern of the vectorized `compute`:
`pattern |= get_bit(tts[j], i) << j` for every fanin position `j`, so
fanin `j` occupies bit `j` (least-significant-first). -/
def pattern_at (tts : List (List Bool)) (nfanin i : Nat) : Nat :=
  (List.range nfanin).foldl
    (fun pat j => pat ||| ((if (tts.getD j []).getD i false then 1 else 0) <<< j)) 0

/-- One output bit of the vectorized `compute`: the bit is set iff either
some cube matches and the polarity is ON, or no cube matches and the
polarity is OFF. -/
def tt_found_bit (cubes : List cube) (pat : Nat) (pol : Bool) : Bool :=
  if cubes.any (fun cb => cb.bits &&& cb.mask == pat &&& cb.mask) then pol else !pol

/-- The vectorized `compute` (iterator-over-truth-table overload): the
result has the bit-width of the first input vector, and bit `i` is
evaluated from the i-th bits of the fanin vectors, fanin `j` at bit
position `j`. -/
def compute_vec (st : cover_storage) (n : Nat) (tts : List (List Bool)) : List Bool :=
  let nfanin := (nodeAt st n).children.length
  let cov := node_cover st n
  (List.range (tts.headD []).length).map
    (fun i => tt_found_bit cov.1 (pattern_at tts nfanin i) cov.2)

/-- The child list of node `i`. -/
def childrenAt (st : cover_storage) (i : Nat) : List Nat := (nodeAt st i).children

/-- A well-formedness invariant of the hash-consing table that every state
reachable through the public API satisfies: every hashed entry with a
non-empty children list (i.e. every hashed gate) has a cover reference
strictly below the current cover-table size.  It holds because a gate's
key is built from the index `cover_storage_data::insert` returned before
the gate was hashed, and the cover table only grows. -/
abbrev HashOk (st : cover_storage) : Prop :=
  ∀ p ∈ st.hash, p.1.1 ≠ [] → p.1.2 < st.covers.length

/-- The value of a bit list read most-significant-first (the first list
element is the highest bit), as the single-assignment `compute` folds its
input. -/
def msbVal : List Bool → Nat
  | [] => 0
  | b :: bs => (if b then 1 else 0) * 2 ^ bs.length + msbVal bs

/-- The value of a bit list read least-significant-first (the first list
element is bit 0), as the vectorized `compute` assembles its per-position
pattern. -/
def levVal : List Bool → Nat
  | [] => 0
  | b :: bs => (if b then 1 else 0) + 2 * levVal bs

/-- The "modified" events `subst_children_go` fires while scanning one
node's child vector: one event per child equal to `old`, each carrying the
child list as it stands at that moment (already-processed references
rewritten). -/
def emitted (o ne i : Nat) : List Nat → List Nat → List (Nat × List Nat)
  | _, [] => []
  | acc, c :: cs =>
    if c = o then (i, acc ++ c :: cs) :: emitted o ne i (acc ++ [ne]) cs
    else emitted o ne i (acc ++ [c]) cs

/-- The full "modified"-event trace of one `substitute_node(o, ne)` call
on state `st`, in firing order. -/
def emitted_all (o ne : Nat) (st : cover_storage) : List (Nat × List Nat) :=
  (List.range st.nodes.length).flatMap (fun i => emitted o ne i [] (childrenAt st i))

/-- Concrete state: a fresh network with two primary inputs (nodes 2, 3). -/
def stPP : cover_storage := (create_pi (create_pi cover_network_new).1).1

/-- Concrete state: `stPP` after one `create_and(2, 3)` (the AND is node 4). -/
def stAnd1 : cover_storage := (create_and stPP 2 3).1

/-- Concrete state: `stPP` after one `create_lt(2, 3)` (the LT is node 4). -/
def stLT : cover_storage := (create_lt stPP 2 3).1

/-- Concrete state: a fresh network with one primary input (node 2) and
the gate `create_and(2, 2)` (node 3, duplicated child). -/
def stDup : cover_storage := (create_and (create_pi cover_network_new).1 2 2).1

/-- Concrete state: a fresh network after one `create_ro()` (node 2). -/
def stRo : cover_storage := (create_ro cover_network_new).1

/-! ### Generic helpers about default-valued list reads and updates -/

theorem getD_append_small {α} (l m : List α) (i : Nat) (d : α) (h : i < l.length) :
    (l ++ m).getD i d = l.getD i d := by
  simp [List.getD_eq_getElem?_getD, List.getElem?_append_left h]

theorem getD_append_last {α} (l : List α) (x d : α) :
    (l ++ [x]).getD l.length d = x := by
  simp [List.getD_eq_getElem?_getD, List.getElem?_append_right (Nat.le_refl _)]

theorem getD_append_big {α} (l m : List α) (i : Nat) (d : α) (h : l.length + m.length ≤ i) :
    (l ++ m).getD i d = d := by
  apply List.getD_eq_default
  simpa using h

theorem getD_set_self {α} (l : List α) (i : Nat) (a d : α) (h : i < l.length) :
    (l.set i a).getD i d = a := by
  simp [List.getD_eq_getElem?_getD, List.getElem?_set_self h]

theorem getD_set_ne {α} (l : List α) (i j : Nat) (a d : α) (h : i ≠ j) :
    (l.set i a).getD j d = l.getD j d := by
  simp [List.getD_eq_getElem?_getD, List.getElem?_set_ne h]

theorem getD_set_split {α} (l : List α) (i j : Nat) (a d : α) :
    (l.set i a).getD j d = if i = j ∧ i < l.length then a else l.getD j d := by
  by_cases hij : i = j
  · subst hij
    by_cases hi : i < l.length
    · simp [getD_set_self _ _ _ _ hi, hi]
    · rw [List.set_eq_of_length_le (Nat.le_of_not_lt hi)]
      simp [hi]
  · simp [getD_set_ne _ _ _ _ _ hij, hij]

theorem getD_map_fanout (f : cover_storage_node → cover_storage_node)
    (hf : ∀ nd, (f nd).fanout = nd.fanout) (l : List cover_storage_node) (n : Nat) :
    ((l.map f).getD n default).fanout = (l.getD n default).fanout := by
  simp only [List.getD_eq_getElem?_getD, List.getElem?_map]
  cases l[n]? <;> simp [hf]

theorem range_map_getD {α} (g : Nat → α) (w i : Nat) (d : α) (h : i < w) :
    ((List.range w).map g).getD i d = g i := by
  simp [List.getD_eq_getElem?_getD, List.getElem?_map, List.getElem?_range h]

/-! ### updNode and field projections -/

theorem updNode_length (ns : List cover_storage_node) (i : Nat)
    (f : cover_storage_node → cover_storage_node) :
    (updNode ns i f).length = ns.length := by
  simp [updNode]

theorem getD_updNode_self (ns : List cover_storage_node) (i : Nat)
    (f : cover_storage_node → cover_storage_node) (h : i < ns.length) :
    (updNode ns i f).getD i default = f (ns.getD i default) := by
  simp [updNode, List.getD_eq_getElem?_getD, List.getElem?_set_self h]

theorem getD_updNode_ne (ns : List cover_storage_node) (i j : Nat)
    (f : cover_storage_node → cover_storage_node) (h : i ≠ j) :
    (updNode ns i f).getD j default = ns.getD j default := by
  simp [updNode, List.getD_eq_getElem?_getD, List.getElem?_set_ne h]

theorem getD_updNode_split (ns : List cover_storage_node) (i j : Nat)
    (f : cover_storage_node → cover_storage_node) :
    (updNode ns i f).getD j default =
      if i = j ∧ i < ns.length then f (ns.getD i default) else ns.getD j default := by
  by_cases hij : i = j
  · subst hij
    by_cases hi : i < ns.length
    · rw [getD_updNode_self _ _ _ hi]
      simp [hi]
    · rw [updNode, List.set_eq_of_length_le (Nat.le_of_not_lt hi)]
      simp [hi]
  · rw [getD_updNode_ne _ _ _ _ hij]
    simp [hij]

/-- Any node-field projection that a per-node update function preserves is
preserved at every arena position by `updNode`. -/
theorem proj_updNode {β : Type} (proj : cover_storage_node → β)
    (ns : List cover_storage_node) (i j : Nat)
    (f : cover_storage_node → cover_storage_node)
    (hk : ∀ nd, proj (f nd) = proj nd) :
    proj ((updNode ns i f).getD j default) = proj (ns.getD j default) := by
  rw [getD_updNode_split]
  split
  · next h =>
      obtain ⟨rfl, -⟩ := h
      exact hk _
  · rfl

theorem fanout_updNode_mono (ns : List cover_storage_node) (i j : Nat)
    (f : cover_storage_node → cover_storage_node)
    (hf : ∀ nd, nd.fanout ≤ (f nd).fanout) :
    (ns.getD j default).fanout ≤ ((updNode ns i f).getD j default).fanout := by
  rw [getD_updNode_split]
  split
  · next h =>
      obtain ⟨rfl, -⟩ := h
      exact hf _
  · exact Nat.le_refl _

/-! ### Effect of single fanout increments -/

theorem incrFanout_frame (st : cover_storage) (i : Nat) :
    (incrFanout st i).covers = st.covers ∧ (incrFanout st i).hash = st.hash ∧
    (incrFanout st i).inputs = st.inputs ∧ (incrFanout st i).outputs = st.outputs ∧
    (incrFanout st i).eventsAdd = st.eventsAdd ∧
    (incrFanout st i).eventsModified = st.eventsModified ∧
    (incrFanout st i).nodes.length = st.nodes.length := by
  simp [incrFanout, updNode]

theorem childrenAt_incrFanout (st : cover_storage) (i j : Nat) :
    childrenAt (incrFanout st i) j = childrenAt st j := by
  show ((updNode st.nodes i (fun nd => { nd with fanout := nd.fanout + 1 })).getD j
      default).children = (st.nodes.getD j default).children
  exact proj_updNode (fun nd => nd.children) _ _ _ _ (fun _ => rfl)

theorem coverRef_incrFanout (st : cover_storage) (i j : Nat) :
    (nodeAt (incrFanout st i) j).coverRef = (nodeAt st j).coverRef := by
  show ((updNode st.nodes i (fun nd => { nd with fanout := nd.fanout + 1 })).getD j
      default).coverRef = (st.nodes.getD j default).coverRef
  exact proj_updNode (fun nd => nd.coverRef) _ _ _ _ (fun _ => rfl)

theorem fanout_incrFanout_mono (st : cover_storage) (i n : Nat) :
    fanout_size st n ≤ fanout_size (incrFanout st i) n := by
  show (st.nodes.getD n default).fanout ≤
    ((updNode st.nodes i (fun nd => { nd with fanout := nd.fanout + 1 })).getD n
      default).fanout
  exact fanout_updNode_mono _ _ _ _ (fun _ => Nat.le_succ _)

theorem fanout_incrFanout_ne (st : cover_storage) (i n : Nat) (h : n ≠ i) :
    fanout_size (incrFanout st i) n = fanout_size st n := by
  unfold fanout_size nodeAt incrFanout
  rw [getD_updNode_ne _ _ _ _ (fun hh => h hh.symm)]

/-! ### Effect of set_value -/

theorem set_value_frame (st : cover_storage) (n v : Nat) :
    (set_value st n v).covers = st.covers ∧ (set_value st n v).hash = st.hash ∧
    (set_value st n v).inputs = st.inputs ∧ (set_value st n v).outputs = st.outputs ∧
    (set_value st n v).eventsAdd = st.eventsAdd ∧
    (set_value st n v).eventsModified = st.eventsModified ∧
    (set_value st n v).nodes.length = st.nodes.length := by
  simp [set_value, updNode]

theorem childrenAt_set_value (st : cover_storage) (n v j : Nat) :
    childrenAt (set_value st n v) j = childrenAt st j := by
  show ((updNode st.nodes n (fun nd => { nd with value := v })).getD j
      default).children = (st.nodes.getD j default).children
  exact proj_updNode (fun nd => nd.children) _ _ _ _ (fun _ => rfl)

theorem coverRef_set_value (st : cover_storage) (n v j : Nat) :
    (nodeAt (set_value st n v) j).coverRef = (nodeAt st j).coverRef := by
  show ((updNode st.nodes n (fun nd => { nd with value := v })).getD j
      default).coverRef = (st.nodes.getD j default).coverRef
  exact proj_updNode (fun nd => nd.coverRef) _ _ _ _ (fun _ => rfl)

theorem fanout_set_value (st : cover_storage) (n v j : Nat) :
    fanout_size (set_value st n v) j = fanout_size st j := by
  show ((updNode st.nodes n (fun nd => { nd with value := v })).getD j
      default).fanout = (st.nodes.getD j default).fanout
  exact proj_updNode (fun nd => nd.fanout) _ _ _ _ (fun _ => rfl)

/-! ### Effect of the child-fanout fold of node construction -/

theorem foldl_pres {σ α : Type} (P : σ → σ → Prop) (hrefl : ∀ s, P s s)
    (htrans : ∀ a b c, P a b → P b c → P a c)
    (f : σ → α → σ) (hstep : ∀ s a, P s (f s a)) :
    ∀ (l : List α) (s : σ), P s (l.foldl f s)
  | [], s => hrefl s
  | a :: l, s =>
    htrans _ _ _ (hstep s a) (foldl_pres P hrefl htrans f hstep l (f s a))

theorem foldl_incr_frame (l : List Nat) (s : cover_storage) :
    (l.foldl (fun s c => incrFanout s c) s).covers = s.covers ∧
    (l.foldl (fun s c => incrFanout s c) s).hash = s.hash ∧
    (l.foldl (fun s c => incrFanout s c) s).inputs = s.inputs ∧
    (l.foldl (fun s c => incrFanout s c) s).outputs = s.outputs ∧
    (l.foldl (fun s c => incrFanout s c) s).eventsAdd = s.eventsAdd ∧
    (l.foldl (fun s c => incrFanout s c) s).eventsModified = s.eventsModified ∧
    (l.foldl (fun s c => incrFanout s c) s).nodes.length = s.nodes.length ∧
    (∀ j, childrenAt (l.foldl (fun s c => incrFanout s c) s) j = childrenAt s j) ∧
    (∀ j, (nodeAt (l.foldl (fun s c => incrFanout s c) s) j).coverRef = (nodeAt s j).coverRef) ∧
    (∀ n, fanout_size s n ≤ fanout_size (l.foldl (fun s c => incrFanout s c) s) n) := by
  refine foldl_pres
    (fun s t => t.covers = s.covers ∧ t.hash = s.hash ∧ t.inputs = s.inputs ∧
      t.outputs = s.outputs ∧ t.eventsAdd = s.eventsAdd ∧
      t.eventsModified = s.eventsModified ∧ t.nodes.length = s.nodes.length ∧
      (∀ j, childrenAt t j = childrenAt s j) ∧
      (∀ j, (nodeAt t j).coverRef = (nodeAt s j).coverRef) ∧
      (∀ n, fanout_size s n ≤ fanout_size t n))
    ?_ ?_ _ ?_ l s
  · intro s
    exact ⟨rfl, rfl, rfl, rfl, rfl, rfl, rfl, fun _ => rfl, fun _ => rfl, fun _ => Nat.le_refl _⟩
  · rintro a b c ⟨h1, h2, h3, h4, h5, h6, h7, h8, h9, h10⟩ ⟨g1, g2, g3, g4, g5, g6, g7, g8, g9, g10⟩
    refine ⟨g1.trans h1, g2.trans h2, g3.trans h3, g4.trans h4, g5.trans h5, g6.trans h6,
      g7.trans h7, fun j => (g8 j).trans (h8 j), fun j => (g9 j).trans (h9 j),
      fun n => Nat.le_trans (h10 n) (g10 n)⟩
  · intro s a
    obtain ⟨f1, f2, f3, f4, f5, f6, f7⟩ := incrFanout_frame s a
    exact ⟨f1, f2, f3, f4, f5, f6, f7, fun j => childrenAt_incrFanout s a j,
      fun j => coverRef_incrFanout s a j, fun n => fanout_incrFanout_mono s a n⟩

theorem foldl_incr_notmem :
    ∀ (l : List Nat) (s : cover_storage) (n : Nat), n ∉ l →
      fanout_size (l.foldl (fun s c => incrFanout s c) s) n = fanout_size s n
  | [], _, _, _ => rfl
  | c :: cs, s, n, h => by
    have hn : ¬(n = c ∨ n ∈ cs) := by simpa using h
    rw [List.foldl_cons,
      foldl_incr_notmem cs _ n (fun hmem => hn (Or.inr hmem)),
      fanout_incrFanout_ne s c n (fun he => hn (Or.inl he))]

/-! ### The hash lookup of a freshly inserted cover always misses -/

theorem hashFind_eq_none (h : List (nodeKey × Nat)) (k : nodeKey)
    (hall : ∀ p ∈ h, p.1 ≠ k) : hashFind h k = none := by
  unfold hashFind
  rw [List.find?_eq_none.mpr]
  · rfl
  · intro p hp
    simpa using hall p hp

theorem hashFind_fresh_none (st : cover_storage) (h : HashOk st)
    (c : List Nat) (hc : c ≠ []) :
    hashFind st.hash (c, st.covers.length) = none := by
  apply hashFind_eq_none
  intro p hp heq
  have h2 := h p hp
  rw [heq] at h2
  exact Nat.lt_irrefl _ (h2 hc)


/-- In a state whose hash table satisfies `HashOk`, `_create_cover_node`
always takes the miss branch: it returns the fresh arena index, appends
the cover and the node, records the new hash entry, fires the "added"
event, and increments exactly the fanouts of the children. -/
theorem create_raw_spec (st : cover_storage) (children : List Nat) (cov : cover_type)
    (h : HashOk st) (hc : children ≠ []) :
    (_create_cover_node st children cov).2 = st.nodes.length ∧
    (_create_cover_node st children cov).1.covers = st.covers ++ [cov] ∧
    (_create_cover_node st children cov).1.nodes.length = st.nodes.length + 1 ∧
    (_create_cover_node st children cov).1.eventsAdd = st.eventsAdd ++ [st.nodes.length] ∧
    (_create_cover_node st children cov).1.hash =
      st.hash ++ [((children, st.covers.length), st.nodes.length)] ∧
    (nodeAt (_create_cover_node st children cov).1 st.nodes.length).children = children ∧
    (nodeAt (_create_cover_node st children cov).1 st.nodes.length).coverRef =
      st.covers.length ∧
    (∀ n, fanout_size st n ≤ fanout_size (_create_cover_node st children cov).1 n) ∧
    (∀ n, n ∉ children →
      fanout_size (_create_cover_node st children cov).1 n = fanout_size st n) := by
  have hm : hashFind st.hash (children, st.covers.length) = none :=
    hashFind_fresh_none st h children hc
  unfold _create_cover_node
  simp only [coverInsert, hm]
  set X : cover_storage :=
    { st with
      covers := st.covers ++ [cov],
      nodes := st.nodes ++ [({ children := children, coverRef := st.covers.length } :
        cover_storage_node)],
      hash := st.hash ++ [((children, st.covers.length), st.nodes.length)] } with hX
  obtain ⟨fo1, fo2, fo3, fo4, fo5, fo6, fo7, fo8, fo9, fo10⟩ := foldl_incr_frame children X
  obtain ⟨sv1, sv2, sv3, sv4, sv5, sv6, sv7⟩ :=
    set_value_frame (children.foldl (fun s c => incrFanout s c) X) st.nodes.length 0
  have hbase : ∀ n, fanout_size X n = fanout_size st n := by
    intro n
    show ((st.nodes ++ [({ children := children, coverRef := st.covers.length } :
      cover_storage_node)]).getD n default).fanout = (st.nodes.getD n default).fanout
    by_cases hlt : n < st.nodes.length
    · rw [getD_append_small _ _ _ _ hlt]
    · by_cases hn2 : n = st.nodes.length
      · subst hn2
        rw [getD_append_last, List.getD_eq_default _ _ (Nat.le_of_not_lt hlt)]
        rfl
      · rw [getD_append_big, List.getD_eq_default _ _ (Nat.le_of_not_lt hlt)]
        simp only [List.length_append, List.length_cons, List.length_nil]
        omega
  refine ⟨trivial, ?_, ?_, ?_, ?_, ?_, ?_, ?_, ?_⟩
  · show (set_value (children.foldl (fun s c => incrFanout s c) X)
      st.nodes.length 0).covers = st.covers ++ [cov]
    rw [sv1, fo1]
  · show (set_value (children.foldl (fun s c => incrFanout s c) X)
      st.nodes.length 0).nodes.length = st.nodes.length + 1
    rw [sv7, fo7, hX]
    simp
  · show (set_value (children.foldl (fun s c => incrFanout s c) X)
      st.nodes.length 0).eventsAdd ++ [st.nodes.length] = st.eventsAdd ++ [st.nodes.length]
    rw [sv5, fo5]
  · show (set_value (children.foldl (fun s c => incrFanout s c) X)
      st.nodes.length 0).hash = st.hash ++ [((children, st.covers.length), st.nodes.length)]
    rw [sv2, fo2]
  · show childrenAt (set_value (children.foldl (fun s c => incrFanout s c) X)
      st.nodes.length 0) st.nodes.length = children
    rw [childrenAt_set_value, fo8]
    show ((st.nodes ++ [({ children := children, coverRef := st.covers.length } :
      cover_storage_node)]).getD st.nodes.length default).children = children
    rw [getD_append_last]
  · show (nodeAt (set_value (children.foldl (fun s c => incrFanout s c) X)
      st.nodes.length 0) st.nodes.length).coverRef = st.covers.length
    rw [coverRef_set_value, fo9]
    show ((st.nodes ++ [({ children := children, coverRef := st.covers.length } :
      cover_storage_node)]).getD st.nodes.length default).coverRef = st.covers.length
    rw [getD_append_last]
  · intro n
    have step1 : fanout_size (set_value (children.foldl (fun s c => incrFanout s c) X)
        st.nodes.length 0) n = fanout_size (children.foldl (fun s c => incrFanout s c) X) n :=
      fanout_set_value _ _ _ _
    show fanout_size st n ≤ fanout_size (set_value (children.foldl
      (fun s c => incrFanout s c) X) st.nodes.length 0) n
    rw [step1]
    calc fanout_size st n = fanout_size X n := (hbase n).symm
      _ ≤ _ := fo10 n
  · intro n hn
    show fanout_size (set_value (children.foldl (fun s c => incrFanout s c) X)
      st.nodes.length 0) n = fanout_size st n
    rw [fanout_set_value, foldl_incr_notmem _ _ _ hn, hbase]

/-- `_create_cover_node` preserves the `HashOk` invariant: the one hash
entry it may add points at the cover index it just inserted, which is
strictly below the grown cover-table size. -/
theorem HashOk_create_raw (st : cover_storage) (c : List Nat) (cov : cover_type)
    (h : HashOk st) (hc : c ≠ []) : HashOk (_create_cover_node st c cov).1 := by
  obtain ⟨-, hcov, -, -, hhash, -, -, -, -⟩ := create_raw_spec st c cov h hc
  intro p hp hne
  rw [hhash] at hp
  rw [hcov]
  rcases List.mem_append.mp hp with h1 | h2
  · have := h p h1 hne
    simp only [List.length_append, List.length_cons, List.length_nil]
    omega
  · have hpe : p = ((c, st.covers.length), st.nodes.length) := by simpa using h2
    subst hpe
    simp only [List.length_append, List.length_cons, List.length_nil]
    omega

/-- C1 (counterexample): in the concrete network with two primary inputs
(nodes 2 and 3), the first `create_and(2,3)` returns node 4, but the
second, identical call returns node 5, appends a sixth node and fires a
second "node added" event — refuting the claim that the second call
returns the identical node id, appends no node and fires no event. -/
theorem C1_cex_second_create_and_differs :
    (create_and stPP 2 3).2 = 4 ∧
    (create_and (create_and stPP 2 3).1 2 3).2 = 5 ∧
    (create_and (create_and stPP 2 3).1 2 3).1.nodes.length =
      (create_and stPP 2 3).1.nodes.length + 1 ∧
    (create_and (create_and stPP 2 3).1 2 3).1.eventsAdd = [4, 5] ∧
    (create_and stPP 2 3).1.eventsAdd = [4] := by decide

/-- C1 (amended): calling the same primitive-gate builder twice with
identical operand signals returns a DIFFERENT node id the second time:
since every builder call first inserts a fresh cover-table entry and the
structural-hash key includes that fresh cover reference, the lookup never
matches an existing node (in any state satisfying the reachable-state
invariant `HashOk`), so the second call appends a brand-new node (id one
larger than the first) and fires a second "node added" event. -/
theorem C1_amended_second_call_appends (st : cover_storage) (a b : Nat) (h : HashOk st) :
    (create_and (create_and st a b).1 a b).2 = (create_and st a b).2 + 1 ∧
    (create_and (create_and st a b).1 a b).2 ≠ (create_and st a b).2 ∧
    (create_and (create_and st a b).1 a b).1.nodes.length =
      (create_and st a b).1.nodes.length + 1 ∧
    (create_and (create_and st a b).1 a b).1.eventsAdd =
      (create_and st a b).1.eventsAdd ++ [(create_and (create_and st a b).1 a b).2] := by
  have hc : ([a, b] : List Nat) ≠ [] := by simp
  have hok : HashOk (create_and st a b).1 := HashOk_create_raw st [a, b] _ h hc
  obtain ⟨b1, -, b3, b4, -, -, -, -, -⟩ :=
    create_raw_spec (create_and st a b).1 [a, b] ([kitty_cube ['1', '1']], true) hok hc
  obtain ⟨a1, -, a3, -, -, -, -, -, -⟩ :=
    create_raw_spec st [a, b] ([kitty_cube ['1', '1']], true) h hc
  have e2 : (create_and (create_and st a b).1 a b).2 = (create_and st a b).1.nodes.length := b1
  have e1 : (create_and st a b).2 = st.nodes.length := a1
  have e3 : (create_and st a b).1.nodes.length = st.nodes.length + 1 := a3
  have e4 : (create_and (create_and st a b).1 a b).1.eventsAdd =
      (create_and st a b).1.eventsAdd ++ [(create_and st a b).1.nodes.length] := b4
  refine ⟨?_, ?_, b3, ?_⟩
  · rw [e2, e1, e3]
  · rw [e2, e1, e3]
    omega
  · rw [e2]
    exact e4

/-- C1 (witness): the amended theorem applied to the concrete two-input
network. -/
theorem C1_amended_witness :
    (create_and (create_and stPP 2 3).1 2 3).2 = (create_and stPP 2 3).2 + 1 ∧
    (create_and (create_and stPP 2 3).1 2 3).2 ≠ (create_and stPP 2 3).2 ∧
    (create_and (create_and stPP 2 3).1 2 3).1.nodes.length =
      (create_and stPP 2 3).1.nodes.length + 1 ∧
    (create_and (create_and stPP 2 3).1 2 3).1.eventsAdd =
      (create_and stPP 2 3).1.eventsAdd ++ [(create_and (create_and stPP 2 3).1 2 3).2] :=
  C1_amended_second_call_appends stPP 2 3 (by decide)

/-- C6 (counterexample): before the second `create_and(2,3)`, the network
`stAnd1` already contains a structurally equivalent gate — node 4 with the
same children `[2,3]` and identical cube content `("11", ON)` — yet the
second call still registers another cover-table entry, appends node 5 and
fires an "added" event, refuting the claim that the cover is registered
only if no structurally equivalent node exists and that such a call leaves
the storage unchanged. -/
theorem C6_cex_cover_registered_despite_equivalent :
    (nodeAt stAnd1 4).children = [2, 3] ∧
    node_cover stAnd1 4 = ([⟨3, 3⟩], true) ∧
    (create_and stAnd1 2 3).2 = 5 ∧
    (nodeAt (create_and stAnd1 2 3).1 5).children = [2, 3] ∧
    node_cover (create_and stAnd1 2 3).1 5 = ([⟨3, 3⟩], true) ∧
    (create_and stAnd1 2 3).1.covers.length = stAnd1.covers.length + 1 ∧
    (create_and stAnd1 2 3).1.eventsAdd = stAnd1.eventsAdd ++ [5] := by decide

/-- C6 (amended): a gate-construction call registers its cover in the
cover table unconditionally, BEFORE consulting the hash table; under the
reachable-state invariant `HashOk` the lookup never finds a match (the key
embeds the fresh cover reference), so every call appends a new node,
fires an "added" event, and leaves the fanout of every non-child node
unchanged — the dedup hit branch is never taken through the builders. -/
theorem C6_amended_always_registers (st : cover_storage) (children : List Nat)
    (cov : cover_type) (h : HashOk st) (hc : children ≠ []) :
    (_create_cover_node st children cov).1.covers = st.covers ++ [cov] ∧
    (_create_cover_node st children cov).2 = st.nodes.length ∧
    (_create_cover_node st children cov).1.nodes.length = st.nodes.length + 1 ∧
    (_create_cover_node st children cov).1.eventsAdd = st.eventsAdd ++ [st.nodes.length] ∧
    (∀ n, n ∉ children →
      fanout_size (_create_cover_node st children cov).1 n = fanout_size st n) := by
  obtain ⟨a1, a2, a3, a4, -, -, -, -, a9⟩ := create_raw_spec st children cov h hc
  exact ⟨a2, a1, a3, a4, a9⟩

/-- C6 (witness): the amended theorem applied to the concrete two-input
network and the AND cover. -/
theorem C6_amended_witness :
    (_create_cover_node stPP [2, 3] ([kitty_cube ['1', '1']], true)).1.covers =
      stPP.covers ++ [([kitty_cube ['1', '1']], true)] ∧
    (_create_cover_node stPP [2, 3] ([kitty_cube ['1', '1']], true)).2 = stPP.nodes.length ∧
    (_create_cover_node stPP [2, 3] ([kitty_cube ['1', '1']], true)).1.nodes.length =
      stPP.nodes.length + 1 ∧
    (_create_cover_node stPP [2, 3] ([kitty_cube ['1', '1']], true)).1.eventsAdd =
      stPP.eventsAdd ++ [stPP.nodes.length] ∧
    (∀ n, n ∉ ([2, 3] : List Nat) →
      fanout_size (_create_cover_node stPP [2, 3] ([kitty_cube ['1', '1']], true)).1 n =
        fanout_size stPP n) :=
  C6_amended_always_registers stPP [2, 3] ([kitty_cube ['1', '1']], true)
    (by decide) (by decide)

/-- C8 (code_bug evaluation): `create_ro` on a fresh network returns node
2 whose cover reference is 2, while the cover table still holds only the
two constant covers (indices 0 and 1): the reference is out of range, so
`node_cover` on a register output reads past the cover table, violating
the claimed invariant.  `create_ro` inserts no cover at all and points the
node at its own arena index instead. -/
theorem C8_create_ro_invalid_cover_ref :
    (create_ro cover_network_new).2 = 2 ∧
    (nodeAt stRo 2).coverRef = 2 ∧
    stRo.covers.length = 2 ∧
    ¬(nodeAt stRo 2).coverRef < stRo.covers.length := by decide

/-- C9: the n-ary reductions applied to the empty operand list return the
seed constants unchanged (`create_nary_and` the true constant `1`,
`create_nary_or` and `create_nary_xor` the false constant `0`), and
applied to a one-element list `[x]` return `x` verbatim with the state
untouched — no node is created in either case. -/
theorem C9_nary_empty_and_singleton :
    (∀ st : cover_storage, create_nary_and st [] = (st, 1)) ∧
    (∀ st : cover_storage, create_nary_or st [] = (st, 0)) ∧
    (∀ st : cover_storage, create_nary_xor st [] = (st, 0)) ∧
    (∀ (st : cover_storage) (x : Nat), create_nary_and st [x] = (st, x)) ∧
    (∀ (st : cover_storage) (x : Nat), create_nary_or st [x] = (st, x)) ∧
    (∀ (st : cover_storage) (x : Nat), create_nary_xor st [x] = (st, x)) :=
  ⟨fun _ => rfl, fun _ => rfl, fun _ => rfl,
   fun _ _ => rfl, fun _ _ => rfl, fun _ _ => rfl⟩

/-- C2 (code_bug evaluation): on the concrete network `stLT` whose node 4
is `create_lt(2, 3)`, single-assignment `compute` returns `true` on the
assignment (va, vb) = (1, 0) and `false` on (0, 1) — the exact complement
of the specified less-than function (1 < 0 is false, 0 < 1 is true).  The
kitty cube string "01" places the first character at literal position 0
(the LOW bit), while the single-assignment fold places the FIRST operand
at the HIGH bit of the evaluated pattern, so the asymmetric comparison
gates evaluate with their arguments swapped. -/
theorem C2_lt_single_compute_swapped :
    compute_single stLT 4 [true, false] = true ∧
    compute_single stLT 4 [false, true] = false := by decide

/-! ### Bit arithmetic for the two compute folds -/

theorem shiftLeft_one_eq (x : Nat) : x <<< 1 = 2 * x := by
  rw [Nat.shiftLeft_eq]
  ring

theorem two_mul_or_one (m : Nat) : (2 * m) ||| 1 = 2 * m + 1 := by
  have h := Nat.mul_add_lt_is_or (show 1 < 2 ^ 1 by decide) m
  simpa [Nat.pow_one] using h.symm

theorem two_mul_xor_one (i : Nat) : (2 * i) ^^^ 1 = 2 * i + 1 := by
  apply Nat.eq_of_testBit_eq
  intro j
  cases j with
  | zero =>
      simp [Nat.testBit_zero, Nat.mul_add_mod, Nat.xor_mod_two_eq_one]
  | succ j =>
      rw [Nat.testBit_add_one, Nat.testBit_add_one, Nat.xor_div_two]
      have h1 : (2 * i) / 2 = i := by omega
      have h2 : (2 * i + 1) / 2 = i := by omega
      have h3 : (1 : Nat) / 2 = 0 := by decide
      rw [h1, h2, h3, Nat.xor_zero]

theorem msbVal_lt (l : List Bool) : msbVal l < 2 ^ l.length := by
  induction l with
  | nil => simp [msbVal]
  | cons b bs ih =>
      have h2 : (if b = true then (1 : Nat) else 0) * 2 ^ bs.length ≤ 2 ^ bs.length := by
        cases b <;> simp
      show (if b = true then 1 else 0) * 2 ^ bs.length + msbVal bs < 2 ^ (b :: bs).length
      simp only [List.length_cons, pow_succ]
      omega

theorem levVal_lt (l : List Bool) : levVal l < 2 ^ l.length := by
  induction l with
  | nil => simp [levVal]
  | cons b bs ih =>
      have h2 : (if b = true then (1 : Nat) else 0) ≤ 1 := by cases b <;> simp
      show (if b = true then 1 else 0) + 2 * levVal bs < 2 ^ (b :: bs).length
      simp only [List.length_cons, pow_succ]
      omega

theorem levVal_append (xs : List Bool) (b : Bool) :
    levVal (xs ++ [b]) = levVal xs + (if b then 1 else 0) * 2 ^ xs.length := by
  induction xs with
  | nil => simp [levVal]
  | cons x xs ih =>
      rw [List.cons_append]
      rw [show levVal (x :: (xs ++ [b])) =
        (if x = true then 1 else 0) + 2 * levVal (xs ++ [b]) from rfl]
      rw [ih]
      rw [show levVal (x :: xs) = (if x = true then 1 else 0) + 2 * levVal xs from rfl]
      simp only [List.length_cons, pow_succ]
      ring

theorem msbVal_append (xs : List Bool) (b : Bool) :
    msbVal (xs ++ [b]) = 2 * msbVal xs + (if b then 1 else 0) := by
  induction xs with
  | nil => simp [msbVal]
  | cons x xs ih =>
      rw [List.cons_append]
      rw [show msbVal (x :: (xs ++ [b])) =
        (if x = true then 1 else 0) * 2 ^ (xs ++ [b]).length + msbVal (xs ++ [b]) from rfl]
      rw [ih]
      rw [show msbVal (x :: xs) =
        (if x = true then 1 else 0) * 2 ^ xs.length + msbVal xs from rfl]
      simp only [List.length_append, List.length_cons, List.length_nil, pow_succ]
      ring

theorem msbVal_reverse (l : List Bool) : msbVal l.reverse = levVal l := by
  induction l with
  | nil => rfl
  | cons b bs ih =>
      rw [List.reverse_cons, msbVal_append, ih]
      rw [show levVal (b :: bs) = (if b = true then 1 else 0) + 2 * levVal bs from rfl]
      ring

/-- The single-assignment fold computes `index = i·2^|l| + msbVal l` and
`mask = m·2^|l| + (2^|l| − 1)`: the first input lands in the highest bit
and the mask covers the consumed width. -/
theorem computeIndexMask_spec (l : List Bool) : ∀ i m : Nat,
    computeIndexMask l (i, m) =
      (i * 2 ^ l.length + msbVal l, m * 2 ^ l.length + (2 ^ l.length - 1)) := by
  induction l with
  | nil => intro i m; simp [computeIndexMask, msbVal]
  | cons b bs ih =>
      intro i m
      have e1 : (i <<< 1) ^^^ (if b then 1 else 0) = 2 * i + (if b then 1 else 0) := by
        cases b
        · simp [shiftLeft_one_eq]
        · simp [shiftLeft_one_eq, two_mul_xor_one]
      have e2 : (m <<< 1) ||| 1 = 2 * m + 1 := by
        rw [shiftLeft_one_eq, two_mul_or_one]
      show computeIndexMask bs ((i <<< 1) ^^^ (if b then 1 else 0), (m <<< 1) ||| 1) = _
      rw [e1, e2, ih]
      have hp : 0 < 2 ^ bs.length := Nat.two_pow_pos bs.length
      refine Prod.ext ?_ ?_
      · show (2 * i + (if b then 1 else 0)) * 2 ^ bs.length + msbVal bs =
          i * 2 ^ (b :: bs).length + msbVal (b :: bs)
        rw [show msbVal (b :: bs) =
          (if b = true then 1 else 0) * 2 ^ bs.length + msbVal bs from rfl]
        simp only [List.length_cons, pow_succ]
        ring
      · show (2 * m + 1) * 2 ^ bs.length + (2 ^ bs.length - 1) =
          m * 2 ^ (b :: bs).length + (2 ^ (b :: bs).length - 1)
        simp only [List.length_cons, pow_succ]
        have e3 : (2 * m + 1) * 2 ^ bs.length =
            m * (2 ^ bs.length * 2) + 2 ^ bs.length := by ring
        rw [e3]
        omega

theorem computeIndexMask_fst (l : List Bool) :
    (computeIndexMask l (0, 0)).1 = msbVal l := by
  rw [computeIndexMask_spec]
  simp

/-- The vectorized per-position fold equals the little-endian value of the
bit sequence it reads: fanin `j` occupies bit `j`. -/
theorem foldl_or_shift (g : Nat → Bool) : ∀ k : Nat,
    (List.range k).foldl (fun pat j => pat ||| ((if g j then 1 else 0) <<< j)) 0
      = levVal ((List.range k).map g) := by
  intro k
  induction k with
  | zero => rfl
  | succ k ih =>
      rw [List.range_succ, List.foldl_append, List.map_append]
      simp only [List.map_cons, List.map_nil]
      rw [levVal_append, ih]
      have hlen : ((List.range k).map g).length = k := by simp
      have hlt : levVal ((List.range k).map g) < 2 ^ k := by
        have := levVal_lt ((List.range k).map g)
        rwa [hlen] at this
      rw [List.foldl_cons, List.foldl_nil, Nat.shiftLeft_eq, hlen]
      have hor := Nat.mul_add_lt_is_or hlt (if g k then 1 else 0)
      calc levVal ((List.range k).map g) ||| (if g k then 1 else 0) * 2 ^ k
          = 2 ^ k * (if g k then 1 else 0) ||| levVal ((List.range k).map g) := by
            rw [Nat.or_comm, Nat.mul_comm]
        _ = 2 ^ k * (if g k then 1 else 0) + levVal ((List.range k).map g) := hor.symm
        _ = levVal ((List.range k).map g) + (if g k then 1 else 0) * 2 ^ k := by ring

theorem range_length_map_getD {α β : Type} (l : List α) (d : α) (f : α → β) :
    (List.range l.length).map (fun j => f (l.getD j d)) = l.map f := by
  apply List.ext_getElem
  · simp
  · intro n h1 h2
    have hn : n < l.length := by simpa using h2
    simp [List.getElem?_eq_getElem hn]

/-- `pattern_at` over exactly one vector per fanin is the little-endian
value of the i-th bit column. -/
theorem pattern_at_eq_levVal (tts : List (List Bool)) (i : Nat) :
    pattern_at tts tts.length i = levVal (tts.map (fun t => t.getD i false)) := by
  unfold pattern_at
  rw [foldl_or_shift (fun j => (tts.getD j []).getD i false) tts.length]
  rw [range_length_map_getD tts [] (fun t => t.getD i false)]

/-- The cube scan returns the polarity iff some cube matches. -/
theorem cube_scan_eq_any (cubes : List cube) (input : Nat) (pol : Bool) :
    cube_scan cubes input pol =
      if cubes.any (fun cb => cb.bits &&& cb.mask == input &&& cb.mask) then pol else !pol := by
  induction cubes with
  | nil => simp [cube_scan]
  | cons cb rest ih =>
      rw [show cube_scan (cb :: rest) input pol =
        (if cb.bits &&& cb.mask == input &&& cb.mask then pol
         else cube_scan rest input pol) from rfl]
      rw [List.any_cons, ih]
      by_cases h : (cb.bits &&& cb.mask == input &&& cb.mask) = true
      · simp [h]
      · simp [h]

/-- The per-bit evaluation of the vectorized compute agrees with the cube
scan of the single-assignment compute. -/
theorem tt_found_bit_eq_cube_scan (cubes : List cube) (pat : Nat) (pol : Bool) :
    tt_found_bit cubes pat pol = cube_scan cubes pat pol := by
  rw [tt_found_bit, cube_scan_eq_any]

/-- One step of the mask loop: `m |= m << 1` turns `2^s − 1` into
`2^(s+1) − 1`. -/
theorem mask_grow_step (s : Nat) (hs : 1 ≤ s) :
    (2 ^ s - 1) ||| ((2 ^ s - 1) <<< 1) = 2 ^ (s + 1) - 1 := by
  apply Nat.eq_of_testBit_eq
  intro j
  rw [Nat.testBit_or, Nat.testBit_shiftLeft, Nat.testBit_two_pow_sub_one,
    Nat.testBit_two_pow_sub_one, Nat.testBit_two_pow_sub_one]
  rw [Bool.eq_iff_iff]
  simp only [Bool.or_eq_true, Bool.and_eq_true, decide_eq_true_eq, ge_iff_le]
  constructor
  · intro h
    omega
  · intro h
    rcases Nat.lt_or_ge j s with hj | hj
    · exact Or.inl hj
    · exact Or.inr ⟨by omega, by omega⟩

theorem ttMask_go_spec : ∀ t s : Nat, 1 ≤ s → ttMask_go t (2 ^ s - 1) = 2 ^ (s + t) - 1 := by
  intro t
  induction t with
  | zero => intro s _; simp [ttMask_go]
  | succ t ih =>
      intro s hs
      rw [show ttMask_go (t + 1) (2 ^ s - 1) =
        ttMask_go t ((2 ^ s - 1) ||| ((2 ^ s - 1) <<< 1)) from rfl]
      rw [mask_grow_step s hs, ih (s + 1) (by omega)]
      have e : s + 1 + t = s + (t + 1) := by omega
      rw [e]

/-- The mask built by the truth-table overload over `k ≥ 1` fanins is the
all-ones mask `2^k − 1`. -/
theorem ttMask_eq (k : Nat) (hk : 1 ≤ k) : ttMask k = 2 ^ k - 1 := by
  unfold ttMask
  have h := ttMask_go_spec (k - 1) 1 (Nat.le_refl 1)
  have e1 : (2 : Nat) ^ 1 - 1 = 1 := by decide
  rw [e1] at h
  rw [h]
  have e : 1 + (k - 1) = k := by omega
  rw [e]

/-- Scanning a list of fully-specified cubes (all with the same mask `M`
absorbing both sides) returns the polarity iff the input is one of the
listed patterns. -/
theorem cube_scan_full_mask (L : List Nat) (M idx : Nat) (pol : Bool)
    (hL : ∀ i ∈ L, i &&& M = i) (hidx : idx &&& M = idx) :
    cube_scan (L.map (fun i => (⟨i, M⟩ : cube))) idx pol =
      if idx ∈ L then pol else !pol := by
  induction L with
  | nil => simp [cube_scan]
  | cons a L ih =>
      rw [List.map_cons]
      rw [show cube_scan ((⟨a, M⟩ : cube) :: L.map (fun i => (⟨i, M⟩ : cube))) idx pol =
        (if (⟨a, M⟩ : cube).bits &&& (⟨a, M⟩ : cube).mask == idx &&& (⟨a, M⟩ : cube).mask
         then pol
         else cube_scan (L.map (fun i => (⟨i, M⟩ : cube))) idx pol) from rfl]
      have ha : a &&& M = a := hL a (List.mem_cons_self a L)
      have hrest : ∀ i ∈ L, i &&& M = i := fun i hi => hL i (List.mem_cons_of_mem a hi)
      rw [show (⟨a, M⟩ : cube).bits = a from rfl, show (⟨a, M⟩ : cube).mask = M from rfl,
        ha, hidx, ih hrest]
      by_cases h : a = idx
      · simp [h]
      · have hne : (a == idx) = false := by simp [h]
        rw [hne]
        simp only [Bool.false_eq_true, if_false]
        have hmem : (idx ∈ a :: L) ↔ (idx ∈ L) := by
          rw [List.mem_cons]
          constructor
          · rintro (he | hm)
            · exact absurd he.symm h
            · exact hm
          · exact Or.inr
        exact (if_congr hmem rfl rfl).symm

/-- Single-assignment `compute` on a freshly built cover node scans
exactly the cover that was passed in, at the index `msbVal vals`. -/
theorem compute_single_create_raw (st : cover_storage) (children : List Nat)
    (cov : cover_type) (vals : List Bool) (h : HashOk st) (hc : children ≠ []) :
    compute_single (_create_cover_node st children cov).1
      (_create_cover_node st children cov).2 vals =
      cube_scan cov.1 (msbVal vals) cov.2 := by
  obtain ⟨r2, rcov, -, -, -, -, rref, -, -⟩ := create_raw_spec st children cov h hc
  simp only [compute_single, node_cover]
  rw [r2, rref, rcov, getD_append_last, computeIndexMask_fst]

/-- C3 (counterexample): at the maximum supported fanin width of 32
(`max_fanin_size`), the truth-table overload never returns: the
enumeration loop's 32-bit counter always stays below the bound
`pow(2, 32)` and wraps around forever, so building a 32-input node from a
truth table (here the all-false table over the 32 fresh signals 2..33)
diverges and no round-trip value exists at that width — refuting the
claim for the top of its stated width range. -/
theorem C3_cex_width32_diverges :
    create_cover_node_tt stPP (List.range' 2 32) (List.replicate (2 ^ 32) false) =
      none := rfl

/-- C3 (amended): for every fanin width from 1 up to 31, building a node
from a truth table terminates and evaluating it with the
single-assignment `compute` reproduces the truth table exactly: for every
boolean assignment (one value per fanin, in fanin order), `compute`
returns the truth-table bit at the index obtained by the
most-significant-first fold of the assignment (`msbVal`, the exact fold
the single-assignment `compute` performs, per §4.5 of the spec).  At the
maximum supported width of 32 the builder diverges (see the
counterexample), so the round trip holds on widths 1..31 only. -/
theorem C3_tt_roundtrip (st : cover_storage) (children : List Nat) (f : List Bool)
    (vals : List Bool) (h : HashOk st) (hc : children ≠ [])
    (hk : children.length ≤ 31) (hf : f.length = 2 ^ children.length)
    (hv : vals.length = children.length) :
    (create_cover_node_tt st children f).map
      (fun r => compute_single r.1 r.2 vals) = some (f.getD (msbVal vals) false) := by
  have hlen : ¬(children.length = 0) := by
    intro h0
    exact hc (List.length_eq_zero.mp h0)
  have hk1 : 1 ≤ children.length := by omega
  have hguard : 2 ^ children.length < 2 ^ 32 := by
    have h1 : (2 : Nat) ^ children.length ≤ 2 ^ 31 := Nat.pow_le_pow_right (by omega) hk
    have h2 : (2 : Nat) ^ 31 < 2 ^ 32 := by norm_num
    omega
  have hw : create_cover_node_tt st children f =
      some (_create_cover_node st children
        (((List.range (2 ^ children.length)).filter
            (fun i => f.getD i false == decide (f.count true ≤ f.count false))).map
          (fun i => (⟨i, ttMask children.length⟩ : cube)),
         decide (f.count true ≤ f.count false))) := by
    unfold create_cover_node_tt
    rw [if_neg hlen, if_pos hguard]
  rw [hw, Option.map_some']
  congr 1
  rw [compute_single_create_raw st children _ vals h hc]
  have hM : ttMask children.length = 2 ^ children.length - 1 := ttMask_eq _ hk1
  have hidxlt : msbVal vals < 2 ^ children.length := by
    have := msbVal_lt vals
    rwa [hv] at this
  rw [cube_scan_full_mask _ _ _ _ ?hL ?hidx]
  case hL =>
    intro x hx
    have hxr : x ∈ List.range (2 ^ children.length) := (List.mem_filter.mp hx).1
    have hxlt : x < 2 ^ children.length := List.mem_range.mp hxr
    rw [hM]
    exact Nat.and_pow_two_sub_one_of_lt_two_pow hxlt
  case hidx =>
    rw [hM]
    exact Nat.and_pow_two_sub_one_of_lt_two_pow hidxlt
  have hmem : (msbVal vals ∈ (List.range (2 ^ children.length)).filter
      (fun i => f.getD i false == decide (f.count true ≤ f.count false))) ↔
      (f.getD (msbVal vals) false = decide (f.count true ≤ f.count false)) := by
    rw [List.mem_filter, List.mem_range]
    constructor
    · intro hx
      exact beq_iff_eq.mp hx.2
    · intro hx
      exact ⟨hidxlt, beq_iff_eq.mpr hx⟩
  by_cases hb : f.getD (msbVal vals) false = decide (f.count true ≤ f.count false)
  · rw [if_pos (hmem.mpr hb)]
    exact hb.symm
  · rw [if_neg (fun hm => hb (hmem.mp hm))]
    cases hfd : f.getD (msbVal vals) false <;>
      cases hp : decide (f.count true ≤ f.count false) <;> simp_all

/-- C3 (witness): the amended round-trip theorem applied to the concrete
two-input network, the XOR truth table `[0,1,1,0]` over children `[2,3]`,
and the assignment (1,0): the builder terminates and the result is bit 2
of the table, `true`. -/
theorem C3_witness :
    (create_cover_node_tt stPP [2, 3] [false, true, true, false]).map
      (fun r => compute_single r.1 r.2 [true, false]) =
      some (([false, true, true, false] : List Bool).getD (msbVal [true, false]) false) :=
  C3_tt_roundtrip stPP [2, 3] [false, true, true, false] [true, false]
    (by decide) (by decide) (by decide) (by decide) (by decide)

/-- C4 (counterexample): on the LT node of `stLT`, vectorized `compute`
with the width-1 vectors a = [1], b = [0] produces bit 0 = `false`
(correctly a < b at that point), while single-assignment `compute` on the
bit-0 column `[1, 0]` taken in fanin order returns `true` — the two
evaluation modes disagree pointwise, because the vectorized mode puts
fanin j at bit j while the single-assignment mode puts the first fanin at
the highest bit. -/
theorem C4_cex_modes_disagree :
    (compute_vec stLT 4 [[true], [false]]).getD 0 false = false ∧
    compute_single stLT 4 [true, false] = true ∧
    (compute_vec stLT 4 [[true], [false]]).getD 0 false ≠
      compute_single stLT 4 [true, false] := by decide

/-- C4 (amended): for every node with k fanins and k equal-width
simulation vectors, bit i of the vectorized `compute` equals the
single-assignment `compute` applied to the i-th bits of the k vectors
taken in REVERSE fanin order (the two modes number the fanins in opposite
bit orders: vectorized puts fanin j at bit j, single-assignment folds the
first fanin into the highest bit). -/
theorem C4_amended_modes_agree_reversed (st : cover_storage) (n : Nat)
    (tts : List (List Bool)) (w i : Nat)
    (hfan : tts.length = fanin_size st n) (h0 : tts ≠ [])
    (hw : ∀ t ∈ tts, t.length = w) (hi : i < w) :
    (compute_vec st n tts).getD i false =
      compute_single st n ((tts.map (fun t => t.getD i false)).reverse) := by
  have hhead : (tts.headD []).length = w := by
    cases tts with
    | nil => exact absurd rfl h0
    | cons t ts => exact hw t (List.mem_cons_self t ts)
  have hfan' : tts.length = (nodeAt st n).children.length := hfan
  simp only [compute_vec]
  rw [hhead, range_map_getD _ w i false hi, tt_found_bit_eq_cube_scan]
  have hp : pattern_at tts (nodeAt st n).children.length i
      = levVal (tts.map (fun t => t.getD i false)) := by
    rw [← hfan']
    exact pattern_at_eq_levVal tts i
  rw [hp]
  simp only [compute_single]
  rw [computeIndexMask_fst, msbVal_reverse]

/-- C4 (witness): the amended theorem applied to the LT node of `stLT`
with the width-1 vectors a = [1], b = [0] at bit position 0. -/
theorem C4_amended_witness :
    (compute_vec stLT 4 [[true], [false]]).getD 0 false =
      compute_single stLT 4 (([[true], [false]].map (fun t => t.getD 0 false)).reverse) :=
  C4_amended_modes_agree_reversed stLT 4 [[true], [false]] 1 0
    (by decide) (by decide) (by decide) (by decide)

/-! ### The inner child-rewrite loop of substitute_node -/

theorem subst_children_go_spec (o ne i : Nat) : ∀ (rest acc : List Nat) (s : cover_storage),
    (subst_children_go o ne i acc rest s).1 = acc ++ rest.map (substFun o ne) ∧
    (subst_children_go o ne i acc rest s).2.covers = s.covers ∧
    (subst_children_go o ne i acc rest s).2.hash = s.hash ∧
    (subst_children_go o ne i acc rest s).2.inputs = s.inputs ∧
    (subst_children_go o ne i acc rest s).2.outputs = s.outputs ∧
    (subst_children_go o ne i acc rest s).2.eventsAdd = s.eventsAdd ∧
    (subst_children_go o ne i acc rest s).2.eventsModified =
      s.eventsModified ++ emitted o ne i acc rest ∧
    (subst_children_go o ne i acc rest s).2.nodes.length = s.nodes.length ∧
    (∀ j, childrenAt (subst_children_go o ne i acc rest s).2 j = childrenAt s j) ∧
    (∀ j, (nodeAt (subst_children_go o ne i acc rest s).2 j).coverRef =
      (nodeAt s j).coverRef) ∧
    (∀ m, fanout_size s m ≤ fanout_size (subst_children_go o ne i acc rest s).2 m) ∧
    (∀ m, m ≠ ne →
      fanout_size (subst_children_go o ne i acc rest s).2 m = fanout_size s m)
  | [], acc, s => by
      refine ⟨by simp [subst_children_go], rfl, rfl, rfl, rfl, rfl, ?_, rfl,
        fun _ => rfl, fun _ => rfl, fun _ => Nat.le_refl _, fun _ _ => rfl⟩
      simp [subst_children_go, emitted]
  | c :: cs, acc, s => by
      by_cases hco : c = o
      · have hstep : subst_children_go o ne i acc (c :: cs) s =
            subst_children_go o ne i (acc ++ [ne]) cs
              { incrFanout s ne with
                eventsModified := (incrFanout s ne).eventsModified ++ [(i, acc ++ c :: cs)] } := by
          rw [show subst_children_go o ne i acc (c :: cs) s =
            (if c = o then
              subst_children_go o ne i (acc ++ [ne]) cs
                { incrFanout s ne with
                  eventsModified := (incrFanout s ne).eventsModified ++ [(i, acc ++ c :: cs)] }
             else subst_children_go o ne i (acc ++ [c]) cs s) from rfl]
          rw [if_pos hco]
        obtain ⟨i1, i2, i3, i4, i5, i6, i7⟩ := incrFanout_frame s ne
        obtain ⟨g1, g2, g3, g4, g5, g6, g7, g8, g9, g10, g11, g12⟩ :=
          subst_children_go_spec o ne i cs (acc ++ [ne])
            { incrFanout s ne with
              eventsModified := (incrFanout s ne).eventsModified ++ [(i, acc ++ c :: cs)] }
        rw [hstep]
        refine ⟨?_, ?_, ?_, ?_, ?_, ?_, ?_, ?_, ?_, ?_, ?_, ?_⟩
        · rw [g1, List.map_cons, substFun, if_pos hco, List.append_assoc]
          rfl
        · rw [g2]; exact i1
        · rw [g3]; exact i2
        · rw [g4]; exact i3
        · rw [g5]; exact i4
        · rw [g6]; exact i5
        · rw [g7]
          show ((incrFanout s ne).eventsModified ++ [(i, acc ++ c :: cs)]) ++
            emitted o ne i (acc ++ [ne]) cs = s.eventsModified ++ emitted o ne i acc (c :: cs)
          rw [i6, List.append_assoc]
          rw [show emitted o ne i acc (c :: cs) =
            (i, acc ++ c :: cs) :: emitted o ne i (acc ++ [ne]) cs from by
              rw [show emitted o ne i acc (c :: cs) =
                (if c = o then (i, acc ++ c :: cs) :: emitted o ne i (acc ++ [ne]) cs
                 else emitted o ne i (acc ++ [c]) cs) from rfl]
              rw [if_pos hco]]
          rfl
        · rw [g8]; exact i7
        · intro j
          rw [g9 j]
          exact childrenAt_incrFanout s ne j
        · intro j
          rw [g10 j]
          exact coverRef_incrFanout s ne j
        · intro m
          calc fanout_size s m ≤ fanout_size (incrFanout s ne) m :=
                fanout_incrFanout_mono s ne m
            _ ≤ _ := g11 m
        · intro m hm
          rw [g12 m hm]
          exact fanout_incrFanout_ne s ne m hm
      · have hstep : subst_children_go o ne i acc (c :: cs) s =
            subst_children_go o ne i (acc ++ [c]) cs s := by
          rw [show subst_children_go o ne i acc (c :: cs) s =
            (if c = o then
              subst_children_go o ne i (acc ++ [ne]) cs
                { incrFanout s ne with
                  eventsModified := (incrFanout s ne).eventsModified ++ [(i, acc ++ c :: cs)] }
             else subst_children_go o ne i (acc ++ [c]) cs s) from rfl]
          rw [if_neg hco]
        obtain ⟨g1, g2, g3, g4, g5, g6, g7, g8, g9, g10, g11, g12⟩ :=
          subst_children_go_spec o ne i cs (acc ++ [c]) s
        rw [hstep]
        refine ⟨?_, g2, g3, g4, g5, g6, ?_, g8, g9, g10, g11, g12⟩
        · rw [g1, List.map_cons, substFun, if_neg hco, List.append_assoc]
          rfl
        · rw [g7]
          rw [show emitted o ne i acc (c :: cs) =
            (if c = o then (i, acc ++ c :: cs) :: emitted o ne i (acc ++ [ne]) cs
             else emitted o ne i (acc ++ [c]) cs) from rfl]
          rw [if_neg hco]

theorem emitted_tag (o ne i : Nat) : ∀ (l acc : List Nat) (e : Nat × List Nat),
    e ∈ emitted o ne i acc l → e.1 = i
  | [], _, e, he => by simp [emitted] at he
  | c :: cs, acc, e, he => by
      by_cases hco : c = o
      · rw [show emitted o ne i acc (c :: cs) =
          (if c = o then (i, acc ++ c :: cs) :: emitted o ne i (acc ++ [ne]) cs
           else emitted o ne i (acc ++ [c]) cs) from rfl, if_pos hco] at he
        rcases List.mem_cons.mp he with h1 | h2
        · rw [h1]
        · exact emitted_tag o ne i cs (acc ++ [ne]) e h2
      · rw [show emitted o ne i acc (c :: cs) =
          (if c = o then (i, acc ++ c :: cs) :: emitted o ne i (acc ++ [ne]) cs
           else emitted o ne i (acc ++ [c]) cs) from rfl, if_neg hco] at he
        exact emitted_tag o ne i cs (acc ++ [c]) e he

theorem emitted_head (o ne i : Nat) : ∀ (l acc : List Nat), o ∈ l →
    (emitted o ne i acc l).head? = some (i, acc ++ l)
  | [], _, hmem => by simp at hmem
  | c :: cs, acc, hmem => by
      by_cases hco : c = o
      · rw [show emitted o ne i acc (c :: cs) =
          (if c = o then (i, acc ++ c :: cs) :: emitted o ne i (acc ++ [ne]) cs
           else emitted o ne i (acc ++ [c]) cs) from rfl, if_pos hco]
        rfl
      · have hcs : o ∈ cs := by
          rcases List.mem_cons.mp hmem with h1 | h2
          · exact absurd h1.symm hco
          · exact h2
        rw [show emitted o ne i acc (c :: cs) =
          (if c = o then (i, acc ++ c :: cs) :: emitted o ne i (acc ++ [ne]) cs
           else emitted o ne i (acc ++ [c]) cs) from rfl, if_neg hco]
        rw [emitted_head o ne i cs (acc ++ [c]) hcs, List.append_assoc]
        rfl

theorem emitted_length (o ne i : Nat) : ∀ (l acc : List Nat),
    (emitted o ne i acc l).length = l.count o
  | [], _ => by simp [emitted]
  | c :: cs, acc => by
      by_cases hco : c = o
      · rw [show emitted o ne i acc (c :: cs) =
          (if c = o then (i, acc ++ c :: cs) :: emitted o ne i (acc ++ [ne]) cs
           else emitted o ne i (acc ++ [c]) cs) from rfl, if_pos hco]
        rw [List.length_cons, emitted_length o ne i cs (acc ++ [ne])]
        rw [List.count_cons]
        simp [hco]
      · rw [show emitted o ne i acc (c :: cs) =
          (if c = o then (i, acc ++ c :: cs) :: emitted o ne i (acc ++ [ne]) cs
           else emitted o ne i (acc ++ [c]) cs) from rfl, if_neg hco]
        rw [emitted_length o ne i cs (acc ++ [c])]
        rw [List.count_cons]
        simp [hco]

theorem childrenAt_oob (s : cover_storage) (i : Nat) (h : s.nodes.length ≤ i) :
    childrenAt s i = [] := by
  unfold childrenAt nodeAt
  rw [List.getD_eq_default _ _ h]
  rfl

theorem flatMap_congr_mem {α β : Type} (l : List α) (f g : α → List β)
    (h : ∀ a ∈ l, f a = g a) : l.flatMap f = l.flatMap g := by
  induction l with
  | nil => rfl
  | cons a l ih =>
      rw [List.flatMap_cons, List.flatMap_cons, h a (List.mem_cons_self a l),
        ih (fun b hb => h b (List.mem_cons_of_mem a hb))]

/-! ### The outer node loop of substitute_node -/

theorem subst_nodes_go_spec (o ne : Nat) : ∀ (is : List Nat) (s : cover_storage),
    is.Nodup →
    (subst_nodes_go o ne is s).covers = s.covers ∧
    (subst_nodes_go o ne is s).hash = s.hash ∧
    (subst_nodes_go o ne is s).inputs = s.inputs ∧
    (subst_nodes_go o ne is s).outputs = s.outputs ∧
    (subst_nodes_go o ne is s).eventsAdd = s.eventsAdd ∧
    (subst_nodes_go o ne is s).nodes.length = s.nodes.length ∧
    (∀ j, (nodeAt (subst_nodes_go o ne is s) j).coverRef = (nodeAt s j).coverRef) ∧
    (∀ j, childrenAt (subst_nodes_go o ne is s) j =
      if j ∈ is then (childrenAt s j).map (substFun o ne) else childrenAt s j) ∧
    (subst_nodes_go o ne is s).eventsModified = s.eventsModified ++
      is.flatMap (fun i => emitted o ne i [] (childrenAt s i)) ∧
    (∀ m, fanout_size s m ≤ fanout_size (subst_nodes_go o ne is s) m) ∧
    (∀ m, m ≠ ne → fanout_size (subst_nodes_go o ne is s) m = fanout_size s m)
  | [], s, _ => by
      refine ⟨rfl, rfl, rfl, rfl, rfl, rfl, fun _ => rfl, fun j => by
        rw [show subst_nodes_go o ne [] s = s from rfl]
        simp, ?_, fun _ => Nat.le_refl _, fun _ _ => rfl⟩
      simp [subst_nodes_go]
  | i :: is', s, hnd => by
      have hnotin : i ∉ is' := (List.nodup_cons.mp hnd).1
      have hnd' : is'.Nodup := (List.nodup_cons.mp hnd).2
      obtain ⟨g1, g2, g3, g4, g5, g6, g7, g8, g9, g10, g11, g12⟩ :=
        subst_children_go_spec o ne i (nodeAt s i).children [] s
      set r := subst_children_go o ne i [] (nodeAt s i).children s with hr
      set s1 : cover_storage :=
        { r.2 with nodes := r.2.nodes.set i { nodeAt r.2 i with children := r.1 } } with hs1
      have hstep : subst_nodes_go o ne (i :: is') s = subst_nodes_go o ne is' s1 := rfl
      -- effect of the one-node step
      have hch1 : ∀ j, childrenAt s1 j =
          if j = i then (childrenAt s i).map (substFun o ne) else childrenAt s j := by
        intro j
        show ((r.2.nodes.set i { nodeAt r.2 i with children := r.1 }).getD j
          default).children = _
        rw [show r.2.nodes.set i { nodeAt r.2 i with children := r.1 } =
          updNode r.2.nodes i (fun _ => { nodeAt r.2 i with children := r.1 }) from by
            rw [updNode]]
        rw [getD_updNode_split]
        by_cases hji : j = i
        · subst hji
          by_cases hlt : j < r.2.nodes.length
          · rw [if_pos ⟨rfl, hlt⟩]
            show r.1 = _
            rw [if_pos rfl, g1, List.nil_append]
            rfl
          · rw [if_neg (fun hand => hlt hand.2), if_pos rfl]
            have hge : s.nodes.length ≤ j := by
              rw [← g8]
              omega
            have h0 : childrenAt s j = [] := childrenAt_oob s j hge
            show childrenAt r.2 j = (childrenAt s j).map (substFun o ne)
            rw [g9 j, h0]
            rfl
        · rw [if_neg (fun hand => hji hand.1.symm), if_neg hji]
          exact g9 j
      have hcov1 : ∀ j, (nodeAt s1 j).coverRef = (nodeAt s j).coverRef := by
        intro j
        show ((r.2.nodes.set i { nodeAt r.2 i with children := r.1 }).getD j
          default).coverRef = _
        rw [show r.2.nodes.set i { nodeAt r.2 i with children := r.1 } =
          updNode r.2.nodes i (fun _ => { nodeAt r.2 i with children := r.1 }) from by
            rw [updNode]]
        rw [getD_updNode_split]
        by_cases hji : i = j ∧ i < r.2.nodes.length
        · rw [if_pos hji]
          show (nodeAt r.2 i).coverRef = _
          rw [g10 i, hji.1]
        · rw [if_neg hji]
          exact g10 j
      have hfan1 : ∀ m, fanout_size s1 m = fanout_size r.2 m := by
        intro m
        show ((r.2.nodes.set i { nodeAt r.2 i with children := r.1 }).getD m
          default).fanout = _
        rw [show r.2.nodes.set i { nodeAt r.2 i with children := r.1 } =
          updNode r.2.nodes i (fun _ => { nodeAt r.2 i with children := r.1 }) from by
            rw [updNode]]
        rw [getD_updNode_split]
        by_cases hji : i = m ∧ i < r.2.nodes.length
        · rw [if_pos hji]
          show (nodeAt r.2 i).fanout = _
          rw [hji.1]
          rfl
        · rw [if_neg hji]
          rfl
      have hlen1 : s1.nodes.length = s.nodes.length := by
        show (r.2.nodes.set i _).length = s.nodes.length
        rw [List.length_set]
        exact g8
      have hev1 : s1.eventsModified =
          s.eventsModified ++ emitted o ne i [] (childrenAt s i) := g7
      obtain ⟨h1, h2, h3, h4, h5, h6, h7, h8, h9, h10, h11⟩ :=
        subst_nodes_go_spec o ne is' s1 hnd'
      rw [hstep]
      refine ⟨?_, ?_, ?_, ?_, ?_, ?_, ?_, ?_, ?_, ?_, ?_⟩
      · rw [h1]; exact g2
      · rw [h2]; exact g3
      · rw [h3]; exact g4
      · rw [h4]; exact g5
      · rw [h5]; exact g6
      · rw [h6]; exact hlen1
      · intro j
        rw [h7 j, hcov1 j]
      · intro j
        rw [h8 j]
        by_cases hj' : j ∈ is'
        · rw [if_pos hj', if_pos (List.mem_cons_of_mem i hj'), hch1 j]
          by_cases hji : j = i
          · exact absurd (hji ▸ hj') hnotin
          · rw [if_neg hji]
        · rw [if_neg hj', hch1 j]
          by_cases hji : j = i
          · subst hji
            rw [if_pos rfl, if_pos (List.mem_cons_self _ _)]
          · rw [if_neg hji, if_neg (by
              intro hmem
              rcases List.mem_cons.mp hmem with hx | hx
              · exact hji hx
              · exact hj' hx)]
      · rw [h9, hev1, List.flatMap_cons, ← List.append_assoc]
        congr 1
        apply flatMap_congr_mem
        intro a ha
        rw [hch1 a, if_neg (by
          intro hai
          rw [hai] at ha
          exact hnotin ha)]
      · intro m
        calc fanout_size s m ≤ fanout_size r.2 m := g11 m
          _ = fanout_size s1 m := (hfan1 m).symm
          _ ≤ _ := h10 m
      · intro m hm
        rw [h11 m hm, hfan1 m, g12 m hm]

/-! ### The output-rewrite loop of substitute_node -/

theorem subst_outputs_go_spec (o ne : Nat) : ∀ (xs : List Nat) (s : cover_storage),
    (subst_outputs_go o ne xs s).1 = xs.map (substFun o ne) ∧
    (subst_outputs_go o ne xs s).2.covers = s.covers ∧
    (subst_outputs_go o ne xs s).2.hash = s.hash ∧
    (subst_outputs_go o ne xs s).2.inputs = s.inputs ∧
    (subst_outputs_go o ne xs s).2.outputs = s.outputs ∧
    (subst_outputs_go o ne xs s).2.eventsAdd = s.eventsAdd ∧
    (subst_outputs_go o ne xs s).2.eventsModified = s.eventsModified ∧
    (subst_outputs_go o ne xs s).2.nodes.length = s.nodes.length ∧
    (∀ j, childrenAt (subst_outputs_go o ne xs s).2 j = childrenAt s j) ∧
    (∀ j, (nodeAt (subst_outputs_go o ne xs s).2 j).coverRef = (nodeAt s j).coverRef) ∧
    (∀ m, fanout_size s m ≤ fanout_size (subst_outputs_go o ne xs s).2 m) ∧
    (∀ m, m ≠ ne → fanout_size (subst_outputs_go o ne xs s).2 m = fanout_size s m)
  | [], s => by
      exact ⟨rfl, rfl, rfl, rfl, rfl, rfl, rfl, rfl, fun _ => rfl, fun _ => rfl,
        fun _ => Nat.le_refl _, fun _ _ => rfl⟩
  | x :: xs, s => by
      by_cases hxo : x = o
      · have hstep : subst_outputs_go o ne (x :: xs) s =
            (ne :: (subst_outputs_go o ne xs (incrFanout s ne)).1,
             (subst_outputs_go o ne xs (incrFanout s ne)).2) := by
          rw [show subst_outputs_go o ne (x :: xs) s =
            (if x = o then
              (ne :: (subst_outputs_go o ne xs (incrFanout s ne)).1,
               (subst_outputs_go o ne xs (incrFanout s ne)).2)
             else
              (x :: (subst_outputs_go o ne xs s).1, (subst_outputs_go o ne xs s).2))
            from rfl]
          rw [if_pos hxo]
        obtain ⟨i1, i2, i3, i4, i5, i6, i7⟩ := incrFanout_frame s ne
        obtain ⟨g1, g2, g3, g4, g5, g6, g7, g8, g9, g10, g11, g12⟩ :=
          subst_outputs_go_spec o ne xs (incrFanout s ne)
        rw [hstep]
        refine ⟨?_, ?_, ?_, ?_, ?_, ?_, ?_, ?_, ?_, ?_, ?_, ?_⟩
        · show ne :: (subst_outputs_go o ne xs (incrFanout s ne)).1 = _
          rw [g1, List.map_cons, substFun, if_pos hxo]
        · show (subst_outputs_go o ne xs (incrFanout s ne)).2.covers = _
          rw [g2]; exact i1
        · show (subst_outputs_go o ne xs (incrFanout s ne)).2.hash = _
          rw [g3]; exact i2
        · show (subst_outputs_go o ne xs (incrFanout s ne)).2.inputs = _
          rw [g4]; exact i3
        · show (subst_outputs_go o ne xs (incrFanout s ne)).2.outputs = _
          rw [g5]; exact i4
        · show (subst_outputs_go o ne xs (incrFanout s ne)).2.eventsAdd = _
          rw [g6]; exact i5
        · show (subst_outputs_go o ne xs (incrFanout s ne)).2.eventsModified = _
          rw [g7]; exact i6
        · show (subst_outputs_go o ne xs (incrFanout s ne)).2.nodes.length = _
          rw [g8]; exact i7
        · intro j
          show childrenAt (subst_outputs_go o ne xs (incrFanout s ne)).2 j = _
          rw [g9 j]
          exact childrenAt_incrFanout s ne j
        · intro j
          show (nodeAt (subst_outputs_go o ne xs (incrFanout s ne)).2 j).coverRef = _
          rw [g10 j]
          exact coverRef_incrFanout s ne j
        · intro m
          show fanout_size s m ≤ fanout_size (subst_outputs_go o ne xs (incrFanout s ne)).2 m
          calc fanout_size s m ≤ fanout_size (incrFanout s ne) m :=
                fanout_incrFanout_mono s ne m
            _ ≤ _ := g11 m
        · intro m hm
          show fanout_size (subst_outputs_go o ne xs (incrFanout s ne)).2 m = _
          rw [g12 m hm]
          exact fanout_incrFanout_ne s ne m hm
      · have hstep : subst_outputs_go o ne (x :: xs) s =
            (x :: (subst_outputs_go o ne xs s).1, (subst_outputs_go o ne xs s).2) := by
          rw [show subst_outputs_go o ne (x :: xs) s =
            (if x = o then
              (ne :: (subst_outputs_go o ne xs (incrFanout s ne)).1,
               (subst_outputs_go o ne xs (incrFanout s ne)).2)
             else
              (x :: (subst_outputs_go o ne xs s).1, (subst_outputs_go o ne xs s).2))
            from rfl]
          rw [if_neg hxo]
        obtain ⟨g1, g2, g3, g4, g5, g6, g7, g8, g9, g10, g11, g12⟩ :=
          subst_outputs_go_spec o ne xs s
        rw [hstep]
        refine ⟨?_, g2, g3, g4, g5, g6, g7, g8, g9, g10, g11, g12⟩
        show x :: (subst_outputs_go o ne xs s).1 = _
        rw [g1, List.map_cons, substFun, if_neg hxo]

/-! ### substitute_node assembled -/

theorem substitute_node_parts (st : cover_storage) (o ne : Nat) :
    (substitute_node st o ne).nodes.length = st.nodes.length ∧
    (∀ j, j < st.nodes.length → childrenAt (substitute_node st o ne) j =
      (childrenAt st j).map (substFun o ne)) ∧
    (substitute_node st o ne).outputs = st.outputs.map (substFun o ne) ∧
    fanout_size (substitute_node st o ne) o = 0 ∧
    (∀ m, m ≠ o → fanout_size st m ≤ fanout_size (substitute_node st o ne) m) ∧
    (substitute_node st o ne).eventsModified =
      st.eventsModified ++ emitted_all o ne st := by
  obtain ⟨n1, n2, n3, n4, n5, n6, n7, n8, n9, n10, n11⟩ :=
    subst_nodes_go_spec o ne (List.range st.nodes.length) st (List.nodup_range st.nodes.length)
  set s1 := subst_nodes_go o ne (List.range st.nodes.length) st with hs1
  obtain ⟨o1, o2, o3, o4, o5, o6, o7, o8, o9, o10, o11, o12⟩ :=
    subst_outputs_go_spec o ne s1.outputs s1
  set r := subst_outputs_go o ne s1.outputs s1 with hrr
  set s2 : cover_storage := { r.2 with outputs := r.1 } with hs2
  have hfin : substitute_node st o ne =
      { s2 with nodes := updNode s2.nodes o (fun nd => { nd with fanout := 0 }) } := rfl
  have hch2 : ∀ j, childrenAt s2 j = childrenAt s1 j := o9
  have hlen2 : s2.nodes.length = s1.nodes.length := o8
  have hev2 : s2.eventsModified = s1.eventsModified := o7
  -- effect of the final fanout reset
  have hch3 : ∀ j, childrenAt (substitute_node st o ne) j = childrenAt s2 j := by
    intro j
    rw [hfin]
    show ((updNode s2.nodes o (fun nd => { nd with fanout := 0 })).getD j
      default).children = (s2.nodes.getD j default).children
    exact proj_updNode (fun nd => nd.children) _ _ _ _ (fun _ => rfl)
  have hlen3 : (substitute_node st o ne).nodes.length = s2.nodes.length := by
    rw [hfin]
    show (updNode s2.nodes o (fun nd => { nd with fanout := 0 })).length = s2.nodes.length
    rw [updNode_length]
  have hout3 : (substitute_node st o ne).outputs = r.1 := by
    rw [hfin]
  have hev3 : (substitute_node st o ne).eventsModified = s2.eventsModified := by
    rw [hfin]
  have hreset : fanout_size (substitute_node st o ne) o = 0 := by
    rw [hfin]
    show ((updNode s2.nodes o (fun nd => { nd with fanout := 0 })).getD o
      default).fanout = 0
    rw [getD_updNode_split]
    by_cases hlt : o < s2.nodes.length
    · rw [if_pos ⟨rfl, hlt⟩]
    · rw [if_neg (fun hand => hlt hand.2), List.getD_eq_default _ _ (Nat.le_of_not_lt hlt)]
      rfl
  have hfan3 : ∀ m, m ≠ o →
      fanout_size (substitute_node st o ne) m = fanout_size s2 m := by
    intro m hm
    rw [hfin]
    show ((updNode s2.nodes o (fun nd => { nd with fanout := 0 })).getD m
      default).fanout = (s2.nodes.getD m default).fanout
    rw [getD_updNode_ne _ _ _ _ (fun he => hm he.symm)]
  refine ⟨?_, ?_, ?_, hreset, ?_, ?_⟩
  · rw [hlen3, hlen2, n6]
  · intro j hj
    rw [hch3 j, hch2 j, n8 j, if_pos (List.mem_range.mpr hj)]
  · rw [hout3, o1, n4]
  · intro m hm
    calc fanout_size st m ≤ fanout_size s1 m := n10 m
      _ ≤ fanout_size r.2 m := o11 m
      _ = fanout_size s2 m := rfl
      _ = fanout_size (substitute_node st o ne) m := (hfan3 m hm).symm
  · rw [hev3, hev2, n9]
    unfold emitted_all
    rfl

theorem substFun_ne_old (o ne c : Nat) (h : ne ≠ o) : substFun o ne c ≠ o := by
  unfold substFun
  by_cases hc : c = o
  · rw [if_pos hc]
    exact h
  · rw [if_neg hc]
    exact hc

/-- C5: after `substitute_node(old, new)` with `old ≠ new` and `old` a
resident node, no node's child list contains `old`, no output entry equals
`old`, the fanout of `old` is zero, and `old` remains a resident,
addressable node of the unchanged-size arena. -/
theorem C5_substitute_removes_old (st : cover_storage) (o ne : Nat)
    (hne : ne ≠ o) (hres : o < st.nodes.length) :
    (∀ nd ∈ (substitute_node st o ne).nodes, o ∉ nd.children) ∧
    o ∉ (substitute_node st o ne).outputs ∧
    fanout_size (substitute_node st o ne) o = 0 ∧
    (substitute_node st o ne).nodes.length = st.nodes.length ∧
    o < (substitute_node st o ne).nodes.length := by
  obtain ⟨p1, p2, p3, p4, p5, p6⟩ := substitute_node_parts st o ne
  refine ⟨?_, ?_, p4, p1, by rw [p1]; exact hres⟩
  · intro nd hnd
    obtain ⟨j, hj, hje⟩ := List.mem_iff_getElem.mp hnd
    have hjlt : j < st.nodes.length := by
      rw [← p1]
      exact hj
    have hcj : nd.children = childrenAt (substitute_node st o ne) j := by
      rw [← hje]
      unfold childrenAt nodeAt
      rw [List.getD_eq_getElem?_getD, List.getElem?_eq_getElem hj]
      rfl
    rw [hcj, p2 j hjlt]
    intro hmem
    obtain ⟨c, hc, hce⟩ := List.mem_map.mp hmem
    exact substFun_ne_old o ne c hne hce
  · rw [p3]
    intro hmem
    obtain ⟨c, hc, hce⟩ := List.mem_map.mp hmem
    exact substFun_ne_old o ne c hne hce

/-- C5 (witness): substituting the constant-1 node for the primary input
(node 2) of the concrete network `stDup`. -/
theorem C5_witness :
    (∀ nd ∈ (substitute_node stDup 2 1).nodes, 2 ∉ nd.children) ∧
    2 ∉ (substitute_node stDup 2 1).outputs ∧
    fanout_size (substitute_node stDup 2 1) 2 = 0 ∧
    (substitute_node stDup 2 1).nodes.length = stDup.nodes.length ∧
    2 < (substitute_node stDup 2 1).nodes.length :=
  C5_substitute_removes_old stDup 2 1 (by decide) (by decide)

theorem filter_flatMap_tag {β : Type} (g : Nat → List (Nat × β)) (p : Nat)
    (htag : ∀ i e, e ∈ g i → e.1 = i) :
    ∀ is : List Nat, is.Nodup → p ∈ is →
      (is.flatMap g).filter (fun e => e.1 == p) = g p
  | [], _, hp => by simp at hp
  | i :: is', hnd, hp => by
      have hnotin : i ∉ is' := (List.nodup_cons.mp hnd).1
      have hnd' : is'.Nodup := (List.nodup_cons.mp hnd).2
      rw [List.flatMap_cons, List.filter_append]
      rcases List.mem_cons.mp hp with hpi | hpi
      · subst hpi
        have hall : (g p).filter (fun e => e.1 == p) = g p := by
          rw [List.filter_eq_self]
          intro e he
          simp [htag p e he]
        have hnil : (is'.flatMap g).filter (fun e => e.1 == p) = [] := by
          rw [List.filter_eq_nil_iff]
          intro e he
          obtain ⟨ℓ, hℓ, heℓ⟩ := List.mem_flatMap.mp he
          have := htag ℓ e heℓ
          simp only [this]
          intro hbe
          rw [beq_iff_eq] at hbe
          exact hnotin (hbe ▸ hℓ)
        rw [hall, hnil, List.append_nil]
      · have hpne : p ≠ i := by
          intro he
          exact hnotin (he ▸ hpi)
        have hnil : (g i).filter (fun e => e.1 == p) = [] := by
          rw [List.filter_eq_nil_iff]
          intro e he
          have := htag i e he
          simp only [this]
          intro hbe
          rw [beq_iff_eq] at hbe
          exact hpne hbe.symm
        rw [hnil, List.nil_append]
        exact filter_flatMap_tag g p htag is' hnd' hpi

/-- C7 (counterexample): in the concrete network `stDup`, node 3 has the
child list `[2, 2]`; `substitute_node(2, 1)` fires TWO "modified" events
for node 3, and the second carries `[1, 2]` — the child list after the
first reference was already rewritten — not the pre-mutation list
`[2, 2]`, refuting the claim that every invocation carries the child list
exactly as it was before any of the node's references were rewritten. -/
theorem C7_cex_second_event_not_premutation :
    (nodeAt stDup 3).children = [2, 2] ∧
    (substitute_node stDup 2 1).eventsModified = [(3, [2, 2]), (3, [1, 2])] ∧
    (3, [1, 2]) ∈ (substitute_node stDup 2 1).eventsModified ∧
    [1, 2] ≠ ([2, 2] : List Nat) := by decide

/-- C7 (amended): during `substitute_node(old, new)` one "modified" event
is fired per rewritten child reference (not one per parent node); for
every node `p` having at least one child equal to `old`, the FIRST event
fired for `p` carries `p`'s full pre-mutation child list, the number of
events for `p` equals the number of occurrences of `old` among `p`'s
children, and the whole trace appended by the call is `emitted_all`
(subsequent events for the same node carry the list with the previously
processed references already rewritten). -/
theorem C7_amended_first_event_premutation (st : cover_storage) (o ne p : Nat)
    (hp : p < st.nodes.length) (hmem : o ∈ childrenAt st p) :
    (substitute_node st o ne).eventsModified =
      st.eventsModified ++ emitted_all o ne st ∧
    ((emitted_all o ne st).filter (fun e => e.1 == p)).head? =
      some (p, childrenAt st p) ∧
    ((emitted_all o ne st).filter (fun e => e.1 == p)).length =
      (childrenAt st p).count o := by
  obtain ⟨-, -, -, -, -, p6⟩ := substitute_node_parts st o ne
  have hfil : (emitted_all o ne st).filter (fun e => e.1 == p) =
      emitted o ne p [] (childrenAt st p) := by
    unfold emitted_all
    exact filter_flatMap_tag (fun i => emitted o ne i [] (childrenAt st i)) p
      (fun i e he => emitted_tag o ne i (childrenAt st i) [] e he)
      (List.range st.nodes.length) (List.nodup_range st.nodes.length)
      (List.mem_range.mpr hp)
  refine ⟨p6, ?_, ?_⟩
  · rw [hfil, emitted_head o ne p (childrenAt st p) [] hmem, List.nil_append]
  · rw [hfil, emitted_length o ne p (childrenAt st p) []]

/-- C7 (witness): the amended theorem applied to the duplicated-child
network `stDup`, node 3, substituting node 2 by the constant 1. -/
theorem C7_amended_witness :
    (substitute_node stDup 2 1).eventsModified =
      stDup.eventsModified ++ emitted_all 2 1 stDup ∧
    ((emitted_all 2 1 stDup).filter (fun e => e.1 == 3)).head? =
      some (3, childrenAt stDup 3) ∧
    ((emitted_all 2 1 stDup).filter (fun e => e.1 == 3)).length =
      (childrenAt stDup 3).count 2 :=
  C7_amended_first_event_premutation stDup 2 1 3 (by decide) (by decide)

/-! ### Fanout frame facts per operation -/

theorem fanout_getD_append_zero (ns : List cover_storage_node) (nd : cover_storage_node)
    (h : nd.fanout = 0) (n : Nat) :
    ((ns ++ [nd]).getD n default).fanout = (ns.getD n default).fanout := by
  by_cases hlt : n < ns.length
  · rw [getD_append_small _ _ _ _ hlt]
  · by_cases he : n = ns.length
    · subst he
      rw [getD_append_last, List.getD_eq_default _ _ (Nat.le_of_not_lt hlt), h]
      rfl
    · rw [getD_append_big, List.getD_eq_default _ _ (Nat.le_of_not_lt hlt)]
      simp only [List.length_append, List.length_cons, List.length_nil]
      omega

theorem fanout_create_pi (st : cover_storage) (n : Nat) :
    fanout_size (create_pi st).1 n = fanout_size st n := by
  show ((updNode (st.nodes ++ [newNode]) st.nodes.length
      (fun nd => { nd with coverRef := st.nodes.length })).getD n default).fanout
    = (st.nodes.getD n default).fanout
  exact (proj_updNode (fun nd => nd.fanout) (st.nodes ++ [newNode]) st.nodes.length n
      (fun nd => { nd with coverRef := st.nodes.length }) (fun _ => rfl)).trans
    (fanout_getD_append_zero st.nodes newNode rfl n)

theorem fanout_create_ro (st : cover_storage) (n : Nat) :
    fanout_size (create_ro st).1 n = fanout_size st n := by
  show ((updNode (st.nodes ++ [newNode]) st.nodes.length
      (fun nd => { nd with coverRef := st.nodes.length })).getD n default).fanout
    = (st.nodes.getD n default).fanout
  exact (proj_updNode (fun nd => nd.fanout) (st.nodes ++ [newNode]) st.nodes.length n
      (fun nd => { nd with coverRef := st.nodes.length }) (fun _ => rfl)).trans
    (fanout_getD_append_zero st.nodes newNode rfl n)

theorem fanout_create_po (st : cover_storage) (f n : Nat) :
    fanout_size st n ≤ fanout_size (create_po st f).1 n ∧
    (n ≠ f → fanout_size (create_po st f).1 n = fanout_size st n) := by
  constructor
  · show fanout_size st n ≤ fanout_size (incrFanout st f) n
    exact fanout_incrFanout_mono st f n
  · intro hn
    show fanout_size (incrFanout st f) n = fanout_size st n
    exact fanout_incrFanout_ne st f n hn

theorem fanout_create_ri (st : cover_storage) (f : Nat) (reset : Int) (n : Nat) :
    fanout_size st n ≤ fanout_size (create_ri st f reset).1 n ∧
    (n ≠ f → fanout_size (create_ri st f reset).1 n = fanout_size st n) := by
  constructor
  · show fanout_size st n ≤ fanout_size (incrFanout st f) n
    exact fanout_incrFanout_mono st f n
  · intro hn
    show fanout_size (incrFanout st f) n = fanout_size st n
    exact fanout_incrFanout_ne st f n hn

/-- Fanout effect of `_create_cover_node` in any state (no invariant
needed): both on a hash hit (no fanout touched) and on a miss (children
incremented) the counters are non-decreasing, and counters of non-children
are untouched. -/
theorem fanout_create_raw (st : cover_storage) (c : List Nat) (cov : cover_type) :
    (∀ n, fanout_size st n ≤ fanout_size (_create_cover_node st c cov).1 n) ∧
    (∀ n, n ∉ c → fanout_size (_create_cover_node st c cov).1 n = fanout_size st n) := by
  unfold _create_cover_node
  simp only [coverInsert]
  cases hfind : hashFind st.hash (c, st.covers.length) with
  | some idx =>
      exact ⟨fun n => Nat.le_refl _, fun n _ => rfl⟩
  | none =>
      set X : cover_storage :=
        { st with
          covers := st.covers ++ [cov],
          nodes := st.nodes ++ [({ children := c, coverRef := st.covers.length } :
            cover_storage_node)],
          hash := st.hash ++ [((c, st.covers.length), st.nodes.length)] } with hX
      obtain ⟨-, -, -, -, -, -, -, -, -, fo10⟩ := foldl_incr_frame c X
      have hbase : ∀ n, fanout_size X n = fanout_size st n := by
        intro n
        show ((st.nodes ++ [({ children := c, coverRef := st.covers.length } :
          cover_storage_node)]).getD n default).fanout = (st.nodes.getD n default).fanout
        exact fanout_getD_append_zero st.nodes _ rfl n
      constructor
      · intro n
        show fanout_size st n ≤ fanout_size
          (set_value (c.foldl (fun s x => incrFanout s x) X) st.nodes.length 0) n
        rw [fanout_set_value]
        calc fanout_size st n = fanout_size X n := (hbase n).symm
          _ ≤ _ := fo10 n
      · intro n hn
        show fanout_size
          (set_value (c.foldl (fun s x => incrFanout s x) X) st.nodes.length 0) n
          = fanout_size st n
        rw [fanout_set_value, foldl_incr_notmem _ _ _ hn, hbase]

theorem fanout_create_cover_node (st : cover_storage) (c : List Nat) (cov : cover_type) :
    (∀ n, fanout_size st n ≤ fanout_size (create_cover_node st c cov).1 n) ∧
    (∀ n, n ∉ c → fanout_size (create_cover_node st c cov).1 n = fanout_size st n) := by
  unfold create_cover_node
  by_cases hc : c.length = 0
  · rw [if_pos hc]
    exact ⟨fun n => Nat.le_refl _, fun n _ => rfl⟩
  · rw [if_neg hc]
    exact fanout_create_raw st c cov

theorem fanout_scratch_ops (st : cover_storage) (n v m : Nat) :
    fanout_size (set_value st n v) m = fanout_size st m ∧
    fanout_size (incr_value st n).1 m = fanout_size st m ∧
    fanout_size (decr_value st n).1 m = fanout_size st m ∧
    fanout_size (clear_values st) m = fanout_size st m ∧
    fanout_size (set_visited st n v) m = fanout_size st m ∧
    fanout_size (clear_visited st) m = fanout_size st m ∧
    fanout_size (incr_trav_id st) m = fanout_size st m := by
  refine ⟨fanout_set_value st n v m, ?_, ?_, ?_, ?_, ?_, rfl⟩
  · show ((updNode st.nodes n (fun nd => { nd with value := nd.value + 1 })).getD m
      default).fanout = (st.nodes.getD m default).fanout
    exact proj_updNode (fun nd => nd.fanout) st.nodes n m
      (fun nd => { nd with value := nd.value + 1 }) (fun _ => rfl)
  · show ((updNode st.nodes n (fun nd => { nd with value := nd.value - 1 })).getD m
      default).fanout = (st.nodes.getD m default).fanout
    exact proj_updNode (fun nd => nd.fanout) st.nodes n m
      (fun nd => { nd with value := nd.value - 1 }) (fun _ => rfl)
  · show ((st.nodes.map (fun nd : cover_storage_node => { nd with value := 0 })).getD m
      default).fanout = (st.nodes.getD m default).fanout
    exact getD_map_fanout (fun nd => { nd with value := 0 }) (fun _ => rfl) st.nodes m
  · show ((updNode st.nodes n (fun nd => { nd with visited := v })).getD m
      default).fanout = (st.nodes.getD m default).fanout
    exact proj_updNode (fun nd => nd.fanout) st.nodes n m
      (fun nd => { nd with visited := v }) (fun _ => rfl)
  · show ((st.nodes.map (fun nd : cover_storage_node => { nd with visited := 0 })).getD m
      default).fanout = (st.nodes.getD m default).fanout
    exact getD_map_fanout (fun nd => { nd with visited := 0 }) (fun _ => rfl) st.nodes m

/-- C10: fanout counters are monotone under every API operation except
`substitute_node(old, _)`, which resets `old`'s counter to zero:
`create_pi` and `create_ro` leave every counter unchanged; `create_po`,
`create_ri` and node construction increment only the counters of the
signals they reference (every other counter is unchanged, and no counter
decreases); `substitute_node(old, new)` never decreases any counter other
than `old`'s, which it zeroes; and none of the scratch-state operations
(`set_value`, `incr_value`, `decr_value`, `clear_values`, `set_visited`,
`clear_visited`, `incr_trav_id`) touches any fanout counter.  (The two
`compute` overloads are pure queries in this model and return no state.) -/
theorem C10_fanout_monotone :
    (∀ (st : cover_storage) (n : Nat),
      fanout_size (create_pi st).1 n = fanout_size st n) ∧
    (∀ (st : cover_storage) (n : Nat),
      fanout_size (create_ro st).1 n = fanout_size st n) ∧
    (∀ (st : cover_storage) (f n : Nat),
      fanout_size st n ≤ fanout_size (create_po st f).1 n) ∧
    (∀ (st : cover_storage) (f n : Nat), n ≠ f →
      fanout_size (create_po st f).1 n = fanout_size st n) ∧
    (∀ (st : cover_storage) (f : Nat) (reset : Int) (n : Nat),
      fanout_size st n ≤ fanout_size (create_ri st f reset).1 n) ∧
    (∀ (st : cover_storage) (f : Nat) (reset : Int) (n : Nat), n ≠ f →
      fanout_size (create_ri st f reset).1 n = fanout_size st n) ∧
    (∀ (st : cover_storage) (c : List Nat) (cov : cover_type) (n : Nat),
      fanout_size st n ≤ fanout_size (create_cover_node st c cov).1 n) ∧
    (∀ (st : cover_storage) (c : List Nat) (cov : cover_type) (n : Nat), n ∉ c →
      fanout_size (create_cover_node st c cov).1 n = fanout_size st n) ∧
    (∀ (st : cover_storage) (o ne n : Nat), n ≠ o →
      fanout_size st n ≤ fanout_size (substitute_node st o ne) n) ∧
    (∀ (st : cover_storage) (o ne : Nat),
      fanout_size (substitute_node st o ne) o = 0) ∧
    (∀ (st : cover_storage) (n v m : Nat),
      fanout_size (set_value st n v) m = fanout_size st m ∧
      fanout_size (incr_value st n).1 m = fanout_size st m ∧
      fanout_size (decr_value st n).1 m = fanout_size st m ∧
      fanout_size (clear_values st) m = fanout_size st m ∧
      fanout_size (set_visited st n v) m = fanout_size st m ∧
      fanout_size (clear_visited st) m = fanout_size st m ∧
      fanout_size (incr_trav_id st) m = fanout_size st m) := by
  refine ⟨fanout_create_pi, fanout_create_ro,
    fun st f n => (fanout_create_po st f n).1,
    fun st f n hn => (fanout_create_po st f n).2 hn,
    fun st f r n => (fanout_create_ri st f r n).1,
    fun st f r n hn => (fanout_create_ri st f r n).2 hn,
    fun st c cov n => (fanout_create_cover_node st c cov).1 n,
    fun st c cov n hn => (fanout_create_cover_node st c cov).2 n hn,
    ?_, ?_, fanout_scratch_ops⟩
  · intro st o ne n hn
    obtain ⟨-, -, -, -, p5, -⟩ := substitute_node_parts st o ne
    exact p5 n hn
  · intro st o ne
    obtain ⟨-, -, -, p4, -, -⟩ := substitute_node_parts st o ne
    exact p4

/-- C10 (witness): the conjuncts that carry hypotheses, applied to the
concrete network `stPP` (fanout of node 3 under `create_po`/`create_ri`
of node 2; fanout of the constant 0 under gate construction over `[2,3]`;
fanout of node 3 and of the substituted node 2 under
`substitute_node(2, 1)`). -/
theorem C10_witness :
    fanout_size (create_po stPP 2).1 3 = fanout_size stPP 3 ∧
    fanout_size (create_ri stPP 2 0).1 3 = fanout_size stPP 3 ∧
    fanout_size (create_cover_node stPP [2, 3] ([kitty_cube ['1', '1']], true)).1 0 =
      fanout_size stPP 0 ∧
    fanout_size stPP 3 ≤ fanout_size (substitute_node stPP 2 1) 3 ∧
    fanout_size (substitute_node stPP 2 1) 2 = 0 :=
  ⟨C10_fanout_monotone.2.2.2.1 stPP 2 3 (by decide),
   C10_fanout_monotone.2.2.2.2.2.1 stPP 2 0 3 (by decide),
   C10_fanout_monotone.2.2.2.2.2.2.2.1 stPP [2, 3] ([kitty_cube ['1', '1']], true) 0
     (by decide),
   C10_fanout_monotone.2.2.2.2.2.2.2.2.1 stPP 2 1 3 (by decide),
   C10_fanout_monotone.2.2.2.2.2.2.2.2.2.1 stPP 2 1⟩
